import Mathlib

/-!
# Key-matrix scan and debounce (`orphan/lightsaber/matrix.c`)

A shallow embedding of the scan loop, the debounce counter and the query
functions of `matrix.c`, followed by theorems about them.

Modelling conventions.

* The three file-scope variables `debouncing`, `matrix[]` and
  `matrix_debouncing[]` form the `State`.  The two arrays are memory indexed
  by row; only the indices below `MATRIX_ROWS` belong to the arrays and the
  loops of the program touch no other index.
* `MATRIX_ROWS`, `MATRIX_COLS` and `DEBOUNCE` come from headers and are the
  fields of `Config`.  `debouncing` is a `uint8_t`, so the assignment
  `debouncing = DEBOUNCE` stores `DEBOUNCE % 256`.
* `matrix_row_t` holds one bit per column and `col < MATRIX_COLS`, so neither
  `(matrix_row_t)1 << col` nor the XOR with it leaves the range of the type;
  rows are natural numbers and bit `c` of a row is `Nat.testBit row c`.
* The loop counters are `uint8_t` and `MATRIX_ROWS`, `MATRIX_COLS` are below 256, so
  each `for` loop is a fold over `List.range` of its bound.
* The input of one scan is the level of the input registers `PIND`, `PINB`
  and `PINE` while each column is selected (`Sample`).  Writes to the
  direction and output registers (`select_col`, `unselect_cols`, `init_rows`)
  and the delays do not touch the `State` and are left out.
-/

namespace Lightsaber

/-- Compile-time configuration taken from the headers. -/
structure Config where
  MATRIX_ROWS : Nat
  MATRIX_COLS : Nat
  DEBOUNCE : Nat

/-- The file-scope variables of `matrix.c`. -/
structure State where
  debouncing : Nat
  matrix : Nat → Nat
  matrix_debouncing : Nat → Nat

/-- Levels of the input registers read while one column is selected. -/
structure Pins where
  PIND : Nat
  PINB : Nat
  PINE : Nat

/-- One scan's input: the register levels seen while column `col` is selected. -/
abbrev Sample := Nat → Pins

/-- The configuration of the lightsaber board with debounce depth `d`. -/
def lightsaber (d : Nat) : Config := ⟨6, 18, d⟩

/-- Array store `a[i] = v`. -/
def store (a : Nat → Nat) (i v : Nat) : Nat → Nat :=
  fun k => if k = i then v else a k

/-- The state at program start: statics are zero, `debouncing = DEBOUNCE`. -/
def startup (cfg : Config) : State :=
  { debouncing := cfg.DEBOUNCE % 256
    matrix := fun _ => 0
    matrix_debouncing := fun _ => 0 }

/-- Body of the loop of `matrix_init`. -/
def matrix_init_row (st : State) (i : Nat) : State :=
  { st with
    matrix := store st.matrix i 0
    matrix_debouncing := store st.matrix_debouncing i 0 }

/-- Function `matrix_init`: all keys off in both bitmaps. -/
def matrix_init (cfg : Config) (st : State) : State :=
  (List.range cfg.MATRIX_ROWS).foldl matrix_init_row st

/-- Function `read_rows`: rows 0..3 on PD0..PD3, row 4 on PD5, row 5 on PB7. -/
def read_rows (p : Pins) : Nat :=
  (if p.PIND &&& (1 <<< 0) ≠ 0 then 1 <<< 0 else 0) |||
  (if p.PIND &&& (1 <<< 1) ≠ 0 then 1 <<< 1 else 0) |||
  (if p.PIND &&& (1 <<< 2) ≠ 0 then 1 <<< 2 else 0) |||
  (if p.PIND &&& (1 <<< 3) ≠ 0 then 1 <<< 3 else 0) |||
  (if p.PIND &&& (1 <<< 5) ≠ 0 then 1 <<< 4 else 0) |||
  (if p.PINB &&& (1 <<< 7) ≠ 0 then 1 <<< 5 else 0)

/-- Function `read_fwkey`: the firmware key on PE2, active low, reported as row 3. -/
def read_fwkey (p : Pins) : Nat :=
  if p.PINE &&& (1 <<< 2) ≠ 0 then 0 else 1 <<< 3

/-- The value of the local `rows` of `matrix_scan` for column `col`. -/
def sampled_rows (inp : Sample) (col : Nat) : Nat :=
  let rows := read_rows (inp col)
  if col = 12 then rows ||| read_fwkey (inp col) else rows

/-- The local `bool prev_bit = matrix_debouncing[row] & ((matrix_row_t)1<<col)`. -/
def prev_bit (st : State) (row col : Nat) : Bool :=
  st.matrix_debouncing row &&& (1 <<< col) != 0

/-- The local `bool curr_bit = rows & (1<<row)`. -/
def curr_bit (rows row : Nat) : Bool :=
  rows &&& (1 <<< row) != 0

/-- Body of the inner loop of `matrix_scan` (one key). -/
def scan_key (cfg : Config) (rows col : Nat) (st : State) (row : Nat) : State :=
  if prev_bit st row col != curr_bit rows row then
    { st with
      matrix_debouncing :=
        store st.matrix_debouncing row (st.matrix_debouncing row ^^^ (1 <<< col))
      debouncing := cfg.DEBOUNCE % 256 }
  else st

/-- Body of the outer loop of `matrix_scan` (one column). -/
def scan_col (cfg : Config) (inp : Sample) (st : State) (col : Nat) : State :=
  (List.range cfg.MATRIX_ROWS).foldl (scan_key cfg (sampled_rows inp col) col) st

/-- The outer loop of `matrix_scan`: all columns in ascending order. -/
def column_pass (cfg : Config) (inp : Sample) (st : State) : State :=
  (List.range cfg.MATRIX_COLS).foldl (scan_col cfg inp) st

/-- Body of the copy loop `matrix[i] = matrix_debouncing[i]`. -/
def commit_row (st : State) (i : Nat) : State :=
  { st with matrix := store st.matrix i (st.matrix_debouncing i) }

/-- The `if (debouncing) { ... }` block that ends `matrix_scan`.  The second
component tells whether the copy loop was executed. -/
def settle (cfg : Config) (st : State) : State × Bool :=
  if st.debouncing ≠ 0 then
    let st1 := { st with debouncing := st.debouncing - 1 }
    if st1.debouncing ≠ 0 then
      (st1, false)
    else
      ((List.range cfg.MATRIX_ROWS).foldl commit_row st1, true)
  else
    (st, false)

/-- Function `matrix_scan`: the state it leaves and the value it returns. -/
def matrix_scan (cfg : Config) (inp : Sample) (st : State) : State × Nat :=
  ((settle cfg (column_pass cfg inp st)).1, 1)

/-- Whether this call of `matrix_scan` executes the copy into `matrix`. -/
def scan_commits (cfg : Config) (inp : Sample) (st : State) : Bool :=
  (settle cfg (column_pass cfg inp st)).2

/-- Function `matrix_is_modified`. -/
def matrix_is_modified (st : State) : Bool :=
  if st.debouncing ≠ 0 then false else true

/-- Function `matrix_is_on`. -/
def matrix_is_on (st : State) (row col : Nat) : Bool :=
  st.matrix row &&& (1 <<< col) != 0

/-- Function `matrix_get_row`. -/
def matrix_get_row (st : State) (row : Nat) : Nat :=
  st.matrix row

/-- Modelled from the spec: `bitpop32` is declared in `util.h`, which is not
among the sources; it is the population count (number of set bits) of its
32-bit argument. -/
def bitpop32 (bits : Nat) : Nat :=
  ((List.range 32).filter (fun j => bits.testBit j)).length

/-- Function `matrix_key_count`, with its `uint8_t` accumulator. -/
def matrix_key_count (cfg : Config) (st : State) : Nat :=
  (List.range cfg.MATRIX_ROWS).foldl (fun count i => (count + bitpop32 (st.matrix i)) % 256) 0

/-- The state after the first `n` scans of a run with samples `inps 0, inps 1, ...`. -/
def run (cfg : Config) (inps : Nat → Sample) (st : State) : Nat → State
  | 0 => st
  | n + 1 => (matrix_scan cfg (inps n) (run cfg inps st n)).1

/-- States the program can be in: startup, then any calls of `matrix_init`
and `matrix_scan`. -/
inductive Reachable (cfg : Config) : State → Prop
  | startup : Reachable cfg (startup cfg)
  | init (st : State) : Reachable cfg st → Reachable cfg (matrix_init cfg st)
  | scan (st : State) (inp : Sample) :
      Reachable cfg st → Reachable cfg (matrix_scan cfg inp st).1

/-- Key `(row, col)` is read as asserted in sample `inp`. -/
def sampled (inp : Sample) (row col : Nat) : Bool :=
  curr_bit (sampled_rows inp col) row

/-- Some key of the matrix is sampled differently from its pending bit. -/
def sample_differs (cfg : Config) (inp : Sample) (st : State) : Prop :=
  ∃ row col, row < cfg.MATRIX_ROWS ∧ col < cfg.MATRIX_COLS ∧
    prev_bit st row col ≠ sampled inp row col

/-- The committed bitmap has a different value in `st2` than in `st1`. -/
def committed_differs (cfg : Config) (st1 st2 : State) : Prop :=
  ∃ row, row < cfg.MATRIX_ROWS ∧ st1.matrix row ≠ st2.matrix row

/-- A sample in which exactly key `(0, 0)` is asserted (firmware key released). -/
def press00 : Sample :=
  fun col => if col = 0 then ⟨1, 0, 4⟩ else ⟨0, 0, 4⟩

/-- A sample in which no key is asserted (firmware key released). -/
def idle : Sample :=
  fun _ => ⟨0, 0, 4⟩

/-- One press of key `(0, 0)` lasting a single scan, then nothing. -/
def blip : Nat → Sample :=
  fun i => if i = 0 then press00 else idle

/-- All keys off in both bitmaps and the counter settled. -/
def all_off : State :=
  { debouncing := 0
    matrix := fun _ => 0
    matrix_debouncing := fun _ => 0 }

/-- The configuration of the spec's worked example. -/
def example_cfg : Config := ⟨2, 3, 2⟩

/-- The worked example: the state after `n` scans that all sample key `(0, 0)` asserted,
from all-zero bitmaps and a settled counter, with rows = 2, cols = 3, depth 2. -/
def example_run (n : Nat) : State :=
  run example_cfg (fun _ => press00) all_off n

/-- The keys reported asserted: the pairs `(row, col)` inside the matrix for which
`matrix_is_on` is true. -/
def asserted_keys (cfg : Config) (st : State) : Finset (Nat × Nat) :=
  (Finset.range cfg.MATRIX_ROWS ×ˢ Finset.range cfg.MATRIX_COLS).filter
    (fun p => matrix_is_on st p.1 p.2 = true)

/-- The width in bits of `matrix_row_t`.  The typedef is in `matrix.h`; this file hands the
rows to `bitpop32` and `bitrev32` and prints them with `%032lb`, so a row has 32 bits. -/
def ROW_BITS : Nat := 32

/-- What a call of a query function does: it returns a value, it fails with an
out-of-range condition, or it is a call for which the C language defines no behaviour. -/
inductive QueryResult (α : Type)
  | returned (v : α)
  | out_of_range
  | undefined

/-- A call `matrix_is_on(row, col)`.  The body is the single statement
`return (matrix[row] & ((matrix_row_t)1<<col));`, without any test of `row` or `col`, so no
path fails with an out-of-range condition.  The read `matrix[row]` is inside the array for
`row < MATRIX_ROWS` and the shift `(matrix_row_t)1<<col` is defined for `col` below the
width of `matrix_row_t`; for any other argument the C language defines no behaviour. -/
def is_on_query (cfg : Config) (st : State) (row col : Nat) : QueryResult Bool :=
  if row < cfg.MATRIX_ROWS ∧ col < ROW_BITS then
    QueryResult.returned (matrix_is_on st row col)
  else
    QueryResult.undefined

/-- The read functions of the query interface with their arguments. -/
inductive Read
  | get_row (row : Nat)
  | is_on (row col : Nat)
  | is_modified
  | key_count

/-- One call of a read function: the state it leaves and the value it returns (a `bool`
as 0 or 1).  None of the four bodies assigns to a file-scope variable. -/
def read_call (cfg : Config) (st : State) : Read → State × Nat
  | Read.get_row row => (st, matrix_get_row st row)
  | Read.is_on row col => (st, (matrix_is_on st row col).toNat)
  | Read.is_modified => (st, (matrix_is_modified st).toNat)
  | Read.key_count => (st, matrix_key_count cfg st)

/-- The state after a sequence of read calls. -/
def after_reads (cfg : Config) (st : State) (qs : List Read) : State :=
  qs.foldl (fun s q => (read_call cfg s q).1) st

/-- Two samples with the same row pins in every column: they differ at most in the
level of the firmware-key pin. -/
def same_row_pins (inp1 inp2 : Sample) : Prop :=
  ∀ col, (inp1 col).PIND = (inp2 col).PIND ∧ (inp1 col).PINB = (inp2 col).PINB

/-- A sample in which only the firmware key is pressed (PE2 low). -/
def fwkey_only : Sample :=
  fun _ => ⟨0, 0, 0⟩

/-- Two samples read the same key matrix: the same bit for every key inside the matrix
(firmware key included). -/
def same_keys (cfg : Config) (inp1 inp2 : Sample) : Prop :=
  ∀ r c, r < cfg.MATRIX_ROWS → c < cfg.MATRIX_COLS → sampled inp1 r c = sampled inp2 r c

/-! ## Bit tests -/

theorem land_one_shiftLeft (m c : Nat) : (m &&& (1 <<< c) != 0) = m.testBit c := by
  rw [Nat.one_shiftLeft, Nat.and_two_pow]
  cases h : m.testBit c <;> simp

theorem prev_bit_eq (st : State) (row col : Nat) :
    prev_bit st row col = (st.matrix_debouncing row).testBit col :=
  land_one_shiftLeft _ _

theorem curr_bit_eq (rows row : Nat) : curr_bit rows row = rows.testBit row :=
  land_one_shiftLeft _ _

theorem matrix_is_on_eq (st : State) (row col : Nat) :
    matrix_is_on st row col = (st.matrix row).testBit col :=
  land_one_shiftLeft _ _

theorem testBit_toggle (m col j : Nat) :
    (m ^^^ (1 <<< col)).testBit j = if j = col then !m.testBit j else m.testBit j := by
  rw [Nat.testBit_xor, Nat.one_shiftLeft, Nat.testBit_two_pow]
  by_cases h : j = col
  · subst h; simp
  · have h2 : ¬ col = j := fun e => h e.symm
    simp [h, h2]

/-! ## One key -/

theorem scan_key_matrix (cfg : Config) (rows col : Nat) (st : State) (row : Nat) :
    (scan_key cfg rows col st row).matrix = st.matrix := by
  unfold scan_key
  split <;> rfl

theorem scan_key_bit (cfg : Config) (rows col : Nat) (st : State) (row r j : Nat) :
    ((scan_key cfg rows col st row).matrix_debouncing r).testBit j =
      if r = row ∧ j = col then curr_bit rows row else (st.matrix_debouncing r).testBit j := by
  unfold scan_key
  by_cases hc : prev_bit st row col = curr_bit rows row
  · have hb : (prev_bit st row col != curr_bit rows row) = false := by simp [hc]
    rw [if_neg (by simp [hb])]
    by_cases h : r = row ∧ j = col
    · obtain ⟨h1, h2⟩ := h
      subst h1; subst h2
      rw [if_pos ⟨rfl, rfl⟩, ← hc, prev_bit_eq]
    · rw [if_neg h]
  · have hb : (prev_bit st row col != curr_bit rows row) = true := by simp [hc]
    rw [if_pos hb]
    show (store st.matrix_debouncing row (st.matrix_debouncing row ^^^ (1 <<< col)) r).testBit j = _
    unfold store
    by_cases h1 : r = row
    · subst h1
      rw [if_pos rfl, testBit_toggle]
      by_cases h2 : j = col
      · subst h2
        rw [if_pos rfl, if_pos ⟨rfl, rfl⟩, ← prev_bit_eq]
        revert hc
        cases prev_bit st r j <;> cases curr_bit rows r <;> simp
      · rw [if_neg h2, if_neg (fun h => h2 h.2)]
    · rw [if_neg h1, if_neg (fun h => h1 h.1)]

theorem scan_key_debouncing_same (cfg : Config) (rows col : Nat) (st : State) (row : Nat)
    (h : prev_bit st row col = curr_bit rows row) :
    (scan_key cfg rows col st row).debouncing = st.debouncing := by
  unfold scan_key
  rw [if_neg (by simp [h])]

theorem scan_key_debouncing_diff (cfg : Config) (rows col : Nat) (st : State) (row : Nat)
    (h : prev_bit st row col ≠ curr_bit rows row) :
    (scan_key cfg rows col st row).debouncing = cfg.DEBOUNCE % 256 := by
  unfold scan_key
  rw [if_pos (by simp [h])]

/-! ## One column: the inner loop over the first `k` rows -/

theorem rows_matrix (cfg : Config) (rows col : Nat) (st : State) (k : Nat) :
    ((List.range k).foldl (scan_key cfg rows col) st).matrix = st.matrix := by
  induction k with
  | zero => rfl
  | succ k ih => rw [List.range_succ, List.foldl_append, List.foldl_cons, List.foldl_nil,
      scan_key_matrix, ih]

theorem rows_bit (cfg : Config) (rows col : Nat) (st : State) (k r j : Nat) :
    (((List.range k).foldl (scan_key cfg rows col) st).matrix_debouncing r).testBit j =
      if r < k ∧ j = col then curr_bit rows r else (st.matrix_debouncing r).testBit j := by
  induction k with
  | zero => simp
  | succ k ih =>
    rw [List.range_succ, List.foldl_append, List.foldl_cons, List.foldl_nil, scan_key_bit, ih]
    by_cases h1 : r = k
    · subst h1
      by_cases h2 : j = col
      · simp [h2]
      · simp [h2]
    · by_cases h3 : r < k
      · have : r < k + 1 := by omega
        simp [h1, h3, this]
      · have : ¬ r < k + 1 := by omega
        simp [h1, h3, this]

theorem rows_debouncing_same (cfg : Config) (rows col : Nat) (st : State) (k : Nat)
    (h : ∀ r, r < k → prev_bit st r col = curr_bit rows r) :
    ((List.range k).foldl (scan_key cfg rows col) st).debouncing = st.debouncing := by
  induction k with
  | zero => rfl
  | succ k ih =>
    rw [List.range_succ, List.foldl_append, List.foldl_cons, List.foldl_nil]
    rw [scan_key_debouncing_same, ih (fun r hr => h r (by omega))]
    rw [prev_bit_eq, rows_bit, if_neg (by omega), ← prev_bit_eq]
    exact h k (by omega)

theorem rows_debouncing_diff (cfg : Config) (rows col : Nat) (st : State) (k : Nat)
    (h : ∃ r, r < k ∧ prev_bit st r col ≠ curr_bit rows r) :
    ((List.range k).foldl (scan_key cfg rows col) st).debouncing = cfg.DEBOUNCE % 256 := by
  induction k with
  | zero => obtain ⟨r, hr, _⟩ := h; omega
  | succ k ih =>
    rw [List.range_succ, List.foldl_append, List.foldl_cons, List.foldl_nil]
    by_cases hk : prev_bit st k col = curr_bit rows k
    · rw [scan_key_debouncing_same]
      · apply ih
        obtain ⟨r, hr, hne⟩ := h
        refine ⟨r, ?_, hne⟩
        rcases Nat.lt_succ_iff_lt_or_eq.mp hr with h1 | h1
        · exact h1
        · subst h1; exact absurd hk hne
      · rw [prev_bit_eq, rows_bit, if_neg (by omega), ← prev_bit_eq]
        exact hk
    · rw [scan_key_debouncing_diff]
      rw [prev_bit_eq, rows_bit, if_neg (by omega), ← prev_bit_eq]
      exact hk

/-! ## The column pass: the outer loop over the first `n` columns -/

theorem cols_matrix (cfg : Config) (inp : Sample) (st : State) (n : Nat) :
    ((List.range n).foldl (scan_col cfg inp) st).matrix = st.matrix := by
  induction n with
  | zero => rfl
  | succ n ih =>
    rw [List.range_succ, List.foldl_append, List.foldl_cons, List.foldl_nil]
    rw [scan_col]
    rw [rows_matrix, ih]

theorem cols_bit (cfg : Config) (inp : Sample) (st : State) (n r j : Nat) :
    (((List.range n).foldl (scan_col cfg inp) st).matrix_debouncing r).testBit j =
      if r < cfg.MATRIX_ROWS ∧ j < n then sampled inp r j
      else (st.matrix_debouncing r).testBit j := by
  induction n with
  | zero => simp
  | succ n ih =>
    rw [List.range_succ, List.foldl_append, List.foldl_cons, List.foldl_nil]
    rw [scan_col]
    rw [rows_bit, ih]
    by_cases h1 : r < cfg.MATRIX_ROWS
    · by_cases h2 : j = n
      · subst h2
        simp [h1, sampled]
      · by_cases h3 : j < n
        · have : j < n + 1 := by omega
          simp [h1, h2, h3, this]
        · have : ¬ j < n + 1 := by omega
          simp [h1, h2, h3, this]
    · simp [h1]

theorem cols_debouncing_same (cfg : Config) (inp : Sample) (st : State) (n : Nat)
    (h : ∀ r c, r < cfg.MATRIX_ROWS → c < n → prev_bit st r c = sampled inp r c) :
    ((List.range n).foldl (scan_col cfg inp) st).debouncing = st.debouncing := by
  induction n with
  | zero => rfl
  | succ n ih =>
    rw [List.range_succ, List.foldl_append, List.foldl_cons, List.foldl_nil]
    rw [scan_col]
    rw [rows_debouncing_same, ih (fun r c hr hc => h r c hr (by omega))]
    intro r hr
    rw [prev_bit_eq, cols_bit, if_neg (by omega), ← prev_bit_eq]
    exact h r n hr (by omega)

theorem cols_debouncing_diff (cfg : Config) (inp : Sample) (st : State) (n : Nat)
    (h : ∃ r c, r < cfg.MATRIX_ROWS ∧ c < n ∧ prev_bit st r c ≠ sampled inp r c) :
    ((List.range n).foldl (scan_col cfg inp) st).debouncing = cfg.DEBOUNCE % 256 := by
  induction n with
  | zero => obtain ⟨r, c, _, hc, _⟩ := h; omega
  | succ n ih =>
    rw [List.range_succ, List.foldl_append, List.foldl_cons, List.foldl_nil]
    rw [scan_col]
    by_cases hn : ∀ r, r < cfg.MATRIX_ROWS → prev_bit st r n = sampled inp r n
    · rw [rows_debouncing_same]
      · apply ih
        obtain ⟨r, c, hr, hc, hne⟩ := h
        refine ⟨r, c, hr, ?_, hne⟩
        rcases Nat.lt_succ_iff_lt_or_eq.mp hc with h1 | h1
        · exact h1
        · subst h1; exact absurd (hn r hr) hne
      · intro r hr
        rw [prev_bit_eq, cols_bit, if_neg (by omega), ← prev_bit_eq]
        exact hn r hr
    · apply rows_debouncing_diff
      have hn2 : ∃ r, r < cfg.MATRIX_ROWS ∧ prev_bit st r n ≠ sampled inp r n := by
        by_contra hcon
        apply hn
        intro r hr
        by_contra hne
        exact hcon ⟨r, hr, hne⟩
      obtain ⟨r, hr, hne⟩ := hn2
      refine ⟨r, hr, ?_⟩
      rw [prev_bit_eq, cols_bit, if_neg (by omega), ← prev_bit_eq]
      exact hne

theorem column_pass_matrix (cfg : Config) (inp : Sample) (st : State) :
    (column_pass cfg inp st).matrix = st.matrix :=
  cols_matrix cfg inp st _

theorem column_pass_bit (cfg : Config) (inp : Sample) (st : State) (r j : Nat) :
    ((column_pass cfg inp st).matrix_debouncing r).testBit j =
      if r < cfg.MATRIX_ROWS ∧ j < cfg.MATRIX_COLS then sampled inp r j
      else (st.matrix_debouncing r).testBit j :=
  cols_bit cfg inp st _ r j

theorem column_pass_debouncing_diff (cfg : Config) (inp : Sample) (st : State)
    (h : sample_differs cfg inp st) :
    (column_pass cfg inp st).debouncing = cfg.DEBOUNCE % 256 :=
  cols_debouncing_diff cfg inp st _ h

theorem same_of_not_differs (cfg : Config) (inp : Sample) (st : State)
    (h : ¬ sample_differs cfg inp st) (r c : Nat)
    (hr : r < cfg.MATRIX_ROWS) (hc : c < cfg.MATRIX_COLS) :
    prev_bit st r c = sampled inp r c := by
  by_contra hne
  exact h ⟨r, c, hr, hc, hne⟩

theorem column_pass_debouncing_same (cfg : Config) (inp : Sample) (st : State)
    (h : ¬ sample_differs cfg inp st) :
    (column_pass cfg inp st).debouncing = st.debouncing :=
  cols_debouncing_same cfg inp st _ (same_of_not_differs cfg inp st h)

theorem column_pass_pending_same (cfg : Config) (inp : Sample) (st : State)
    (h : ¬ sample_differs cfg inp st) :
    (column_pass cfg inp st).matrix_debouncing = st.matrix_debouncing := by
  funext r
  apply Nat.eq_of_testBit_eq
  intro j
  rw [column_pass_bit]
  split
  · next hrc => rw [← same_of_not_differs cfg inp st h r j hrc.1 hrc.2, prev_bit_eq]
  · rfl

/-! ## The settle block -/

theorem commit_rows_pending (st : State) (k : Nat) :
    ((List.range k).foldl commit_row st).matrix_debouncing = st.matrix_debouncing := by
  induction k with
  | zero => rfl
  | succ k ih =>
    rw [List.range_succ, List.foldl_append, List.foldl_cons, List.foldl_nil]
    exact ih

theorem commit_rows_debouncing (st : State) (k : Nat) :
    ((List.range k).foldl commit_row st).debouncing = st.debouncing := by
  induction k with
  | zero => rfl
  | succ k ih =>
    rw [List.range_succ, List.foldl_append, List.foldl_cons, List.foldl_nil]
    exact ih

theorem commit_rows_matrix (st : State) (k r : Nat) :
    ((List.range k).foldl commit_row st).matrix r =
      if r < k then st.matrix_debouncing r else st.matrix r := by
  induction k with
  | zero => simp
  | succ k ih =>
    rw [List.range_succ, List.foldl_append, List.foldl_cons, List.foldl_nil]
    show store _ k _ r = _
    unfold store
    by_cases h1 : r = k
    · subst h1
      rw [if_pos rfl, commit_rows_pending, if_pos (by omega)]
    · rw [if_neg h1, ih]
      by_cases h2 : r < k
      · rw [if_pos h2, if_pos (by omega)]
      · rw [if_neg h2, if_neg (by omega)]

theorem settle_debouncing (cfg : Config) (st : State) :
    (settle cfg st).1.debouncing = st.debouncing - 1 := by
  unfold settle
  by_cases h0 : st.debouncing = 0
  · simp [h0]
  · by_cases h1 : st.debouncing - 1 = 0
    · simp [h0, h1, commit_rows_debouncing]
    · simp [h0, h1]

theorem settle_pending (cfg : Config) (st : State) :
    (settle cfg st).1.matrix_debouncing = st.matrix_debouncing := by
  unfold settle
  by_cases h0 : st.debouncing = 0
  · simp [h0]
  · by_cases h1 : st.debouncing - 1 = 0
    · simp [h0, h1, commit_rows_pending]
    · simp [h0, h1]

theorem settle_commits_iff (cfg : Config) (st : State) :
    (settle cfg st).2 = true ↔ st.debouncing = 1 := by
  unfold settle
  by_cases h0 : st.debouncing = 0
  · simp [h0]
  · by_cases h1 : st.debouncing - 1 = 0
    · simp [h0, h1]; omega
    · simp [h0, h1]; omega

theorem settle_matrix_commit (cfg : Config) (st : State) (h : st.debouncing = 1) (r : Nat) :
    (settle cfg st).1.matrix r =
      if r < cfg.MATRIX_ROWS then st.matrix_debouncing r else st.matrix r := by
  unfold settle
  simp [h, commit_rows_matrix]

theorem settle_matrix_keep (cfg : Config) (st : State) (h : st.debouncing ≠ 1) :
    (settle cfg st).1.matrix = st.matrix := by
  unfold settle
  by_cases h0 : st.debouncing = 0
  · simp [h0]
  · have h1 : ¬ st.debouncing - 1 = 0 := by omega
    simp [h0, h1]

/-! ## One scan -/

theorem scan_pending (cfg : Config) (inp : Sample) (st : State) :
    (matrix_scan cfg inp st).1.matrix_debouncing = (column_pass cfg inp st).matrix_debouncing :=
  settle_pending cfg _

theorem scan_bit (cfg : Config) (inp : Sample) (st : State) (r j : Nat) :
    ((matrix_scan cfg inp st).1.matrix_debouncing r).testBit j =
      if r < cfg.MATRIX_ROWS ∧ j < cfg.MATRIX_COLS then sampled inp r j
      else (st.matrix_debouncing r).testBit j := by
  rw [scan_pending, column_pass_bit]

theorem scan_debouncing (cfg : Config) (inp : Sample) (st : State) :
    (matrix_scan cfg inp st).1.debouncing = (column_pass cfg inp st).debouncing - 1 :=
  settle_debouncing cfg _

theorem scan_debouncing_diff (cfg : Config) (inp : Sample) (st : State)
    (h : sample_differs cfg inp st) :
    (matrix_scan cfg inp st).1.debouncing = cfg.DEBOUNCE % 256 - 1 := by
  rw [scan_debouncing, column_pass_debouncing_diff cfg inp st h]

theorem scan_debouncing_same (cfg : Config) (inp : Sample) (st : State)
    (h : ¬ sample_differs cfg inp st) :
    (matrix_scan cfg inp st).1.debouncing = st.debouncing - 1 := by
  rw [scan_debouncing, column_pass_debouncing_same cfg inp st h]

theorem scan_commits_iff (cfg : Config) (inp : Sample) (st : State) :
    scan_commits cfg inp st = true ↔ (column_pass cfg inp st).debouncing = 1 :=
  settle_commits_iff cfg _

theorem scan_matrix_commit (cfg : Config) (inp : Sample) (st : State)
    (h : scan_commits cfg inp st = true) (r : Nat) (hr : r < cfg.MATRIX_ROWS) :
    (matrix_scan cfg inp st).1.matrix r = (matrix_scan cfg inp st).1.matrix_debouncing r := by
  rw [scan_pending]
  show (settle cfg _).1.matrix r = _
  rw [settle_matrix_commit cfg _ ((scan_commits_iff cfg inp st).mp h), if_pos hr]

theorem scan_matrix_keep (cfg : Config) (inp : Sample) (st : State)
    (h : scan_commits cfg inp st = false) :
    (matrix_scan cfg inp st).1.matrix = st.matrix := by
  show (settle cfg _).1.matrix = _
  rw [settle_matrix_keep, column_pass_matrix]
  intro h1
  rw [(scan_commits_iff cfg inp st).mpr h1] at h
  exact Bool.noConfusion h

/-- The counter after a column pass is either the reset value or the old one. -/
theorem column_pass_debouncing_cases (cfg : Config) (inp : Sample) (st : State) :
    (column_pass cfg inp st).debouncing = cfg.DEBOUNCE % 256 ∨
    (column_pass cfg inp st).debouncing = st.debouncing := by
  by_cases h : sample_differs cfg inp st
  · exact Or.inl (column_pass_debouncing_diff cfg inp st h)
  · exact Or.inr (column_pass_debouncing_same cfg inp st h)

/-- After a scan an in-range committed bit is the old committed bit (no copy)
or the bit just sampled (copy). -/
theorem scan_is_on_cases (cfg : Config) (inp : Sample) (st : State) (row col : Nat)
    (hrow : row < cfg.MATRIX_ROWS) (hcol : col < cfg.MATRIX_COLS) :
    (scan_commits cfg inp st = false ∧
      matrix_is_on (matrix_scan cfg inp st).1 row col = matrix_is_on st row col) ∨
    (scan_commits cfg inp st = true ∧
      matrix_is_on (matrix_scan cfg inp st).1 row col = sampled inp row col) := by
  cases h : scan_commits cfg inp st
  · left
    refine ⟨rfl, ?_⟩
    rw [matrix_is_on_eq, matrix_is_on_eq, scan_matrix_keep cfg inp st h]
  · right
    refine ⟨rfl, ?_⟩
    rw [matrix_is_on_eq, scan_matrix_commit cfg inp st h row hrow, scan_bit, if_pos ⟨hrow, hcol⟩]

theorem scan_prev_bit (cfg : Config) (inp : Sample) (st : State) (row col : Nat)
    (hrow : row < cfg.MATRIX_ROWS) (hcol : col < cfg.MATRIX_COLS) :
    prev_bit (matrix_scan cfg inp st).1 row col = sampled inp row col := by
  rw [prev_bit_eq, scan_bit, if_pos ⟨hrow, hcol⟩]

theorem scan_no_commit_of_ne_one (cfg : Config) (inp : Sample) (st : State)
    (hD : cfg.DEBOUNCE % 256 ≠ 1) (hd : st.debouncing ≠ 1) :
    scan_commits cfg inp st = false := by
  cases h : scan_commits cfg inp st
  · rfl
  · have h1 := (scan_commits_iff cfg inp st).mp h
    rcases column_pass_debouncing_cases cfg inp st with h2 | h2
    · rw [h2] at h1; exact absurd h1 hD
    · rw [h2] at h1; exact absurd h1 hd

/-! ## Transient rejection -/

/-- While the key is held (scans `1..k`, `k < DEBOUNCE`) the pending bit is set,
the committed bit is clear and the counter has not come down to zero. -/
theorem transient_held (cfg : Config) (inps : Nat → Sample) (st : State) (row col k : Nat)
    (hD8 : cfg.DEBOUNCE < 256)
    (hrow : row < cfg.MATRIX_ROWS) (hcol : col < cfg.MATRIX_COLS)
    (hpend : prev_bit st row col = false)
    (hcomm : matrix_is_on st row col = false)
    (hkD : k < cfg.DEBOUNCE)
    (hon : ∀ i, i < k → sampled (inps i) row col = true) :
    ∀ n, n < k →
      prev_bit (run cfg inps st (n + 1)) row col = true ∧
      matrix_is_on (run cfg inps st (n + 1)) row col = false ∧
      cfg.DEBOUNCE ≤ (run cfg inps st (n + 1)).debouncing + (n + 1) := by
  have hmod : cfg.DEBOUNCE % 256 = cfg.DEBOUNCE := Nat.mod_eq_of_lt hD8
  intro n
  induction n with
  | zero =>
    intro hn
    have hdiff : sample_differs cfg (inps 0) st :=
      ⟨row, col, hrow, hcol, by rw [hpend, hon 0 hn]; decide⟩
    have hnc : scan_commits cfg (inps 0) st = false := by
      cases h : scan_commits cfg (inps 0) st
      · rfl
      · have h1 := (scan_commits_iff cfg (inps 0) st).mp h
        rw [column_pass_debouncing_diff cfg (inps 0) st hdiff, hmod] at h1
        omega
    refine ⟨?_, ?_, ?_⟩
    · show prev_bit (matrix_scan cfg (inps 0) st).1 row col = true
      rw [scan_prev_bit cfg _ _ _ _ hrow hcol, hon 0 hn]
    · show matrix_is_on (matrix_scan cfg (inps 0) st).1 row col = false
      rw [matrix_is_on_eq, scan_matrix_keep cfg _ _ hnc, ← matrix_is_on_eq, hcomm]
    · show cfg.DEBOUNCE ≤ (matrix_scan cfg (inps 0) st).1.debouncing + (0 + 1)
      rw [scan_debouncing_diff cfg _ _ hdiff, hmod]
      omega
  | succ n ih =>
    intro hn
    obtain ⟨_, h2, h3⟩ := ih (by omega)
    have hnc : scan_commits cfg (inps (n + 1)) (run cfg inps st (n + 1)) = false := by
      apply scan_no_commit_of_ne_one
      · rw [hmod]; omega
      · omega
    refine ⟨?_, ?_, ?_⟩
    · show prev_bit (matrix_scan cfg (inps (n + 1)) (run cfg inps st (n + 1))).1 row col = true
      rw [scan_prev_bit cfg _ _ _ _ hrow hcol, hon (n + 1) hn]
    · show matrix_is_on (matrix_scan cfg (inps (n + 1)) (run cfg inps st (n + 1))).1 row col = false
      rw [matrix_is_on_eq, scan_matrix_keep cfg _ _ hnc, ← matrix_is_on_eq, h2]
    · show cfg.DEBOUNCE ≤
        (matrix_scan cfg (inps (n + 1)) (run cfg inps st (n + 1))).1.debouncing + (n + 1 + 1)
      rw [scan_debouncing]
      rcases column_pass_debouncing_cases cfg (inps (n + 1)) (run cfg inps st (n + 1)) with h | h
      · rw [h, hmod]; omega
      · rw [h]; omega

/-- Once the key is sampled released in every scan, a clear committed bit stays clear. -/
theorem released_stays_off (cfg : Config) (inps : Nat → Sample) (st : State) (row col k : Nat)
    (hrow : row < cfg.MATRIX_ROWS) (hcol : col < cfg.MATRIX_COLS)
    (hcomm : matrix_is_on (run cfg inps st k) row col = false)
    (hoff : ∀ i, k ≤ i → sampled (inps i) row col = false) :
    ∀ m, matrix_is_on (run cfg inps st (k + m)) row col = false := by
  intro m
  induction m with
  | zero => exact hcomm
  | succ m ih =>
    show matrix_is_on (matrix_scan cfg (inps (k + m)) (run cfg inps st (k + m))).1 row col = false
    rcases scan_is_on_cases cfg (inps (k + m)) (run cfg inps st (k + m)) row col hrow hcol
      with ⟨_, h⟩ | ⟨_, h⟩
    · rw [h, ih]
    · rw [h, hoff (k + m) (by omega)]

/-- C1 (transient rejection).  For a debounce depth `D = DEBOUNCE` that the 8-bit counter
can hold, a key `(row, col)` of the matrix whose bit is clear in the pending and in the
committed bitmap, sampled asserted in the first `k` scans with `1 ≤ k < D` and released in
every later scan (all other keys arbitrary), is never set in the committed bitmap: its
committed bit is clear after every scan of the run. -/
theorem C1_transient_rejected (cfg : Config) (inps : Nat → Sample) (st : State)
    (row col k : Nat)
    (hD8 : cfg.DEBOUNCE < 256)
    (hrow : row < cfg.MATRIX_ROWS) (hcol : col < cfg.MATRIX_COLS)
    (hpend : prev_bit st row col = false)
    (hcomm : matrix_is_on st row col = false)
    (hk1 : 1 ≤ k) (hkD : k < cfg.DEBOUNCE)
    (hon : ∀ i, i < k → sampled (inps i) row col = true)
    (hoff : ∀ i, k ≤ i → sampled (inps i) row col = false) :
    ∀ n, matrix_is_on (run cfg inps st n) row col = false := by
  have hA := transient_held cfg inps st row col k hD8 hrow hcol hpend hcomm hkD hon
  intro n
  by_cases hn : n ≤ k
  · cases n with
    | zero => exact hcomm
    | succ n => exact (hA n (by omega)).2.1
  · have hk : matrix_is_on (run cfg inps st k) row col = false := by
      obtain ⟨k', rfl⟩ : ∃ k', k = k' + 1 := ⟨k - 1, by omega⟩
      exact (hA k' (by omega)).2.1
    have hB := released_stays_off cfg inps st row col k hrow hcol hk hoff (n - k)
    have e : k + (n - k) = n := by omega
    rw [e] at hB
    exact hB

/-! ## Sustained press -/

/-- The states of a run in which one key is pressed and held and nothing else moves:
after scan `i + 1` the pending bitmap is the one left by the first scan, the counter
is `DEBOUNCE - (i + 1)` and the committed rows are the old ones before scan `DEBOUNCE`
and the pending ones from then on. -/
theorem sustained_run (cfg : Config) (inps : Nat → Sample) (st : State) (row col n : Nat)
    (hD1 : 1 ≤ cfg.DEBOUNCE) (hD8 : cfg.DEBOUNCE < 256)
    (hrow : row < cfg.MATRIX_ROWS) (hcol : col < cfg.MATRIX_COLS)
    (heq : ∀ r, r < cfg.MATRIX_ROWS → st.matrix r = st.matrix_debouncing r)
    (hoff : matrix_is_on st row col = false)
    (hkey : ∀ i, i < n → sampled (inps i) row col = true)
    (hothers : ∀ i r c, i < n → r < cfg.MATRIX_ROWS → c < cfg.MATRIX_COLS →
      ¬ (r = row ∧ c = col) → sampled (inps i) r c = prev_bit (run cfg inps st i) r c) :
    ∀ i, i < n →
      (run cfg inps st (i + 1)).matrix_debouncing = (run cfg inps st 1).matrix_debouncing ∧
      (run cfg inps st (i + 1)).debouncing = cfg.DEBOUNCE - (i + 1) ∧
      ∀ r, r < cfg.MATRIX_ROWS →
        (run cfg inps st (i + 1)).matrix r =
          if i + 1 < cfg.DEBOUNCE then st.matrix r
          else (run cfg inps st 1).matrix_debouncing r := by
  have hmod : cfg.DEBOUNCE % 256 = cfg.DEBOUNCE := Nat.mod_eq_of_lt hD8
  intro i
  induction i with
  | zero =>
    intro hn
    have hprev : prev_bit st row col = false := by
      rw [prev_bit_eq, ← heq row hrow, ← matrix_is_on_eq, hoff]
    have hdiff : sample_differs cfg (inps 0) st :=
      ⟨row, col, hrow, hcol, by rw [hprev, hkey 0 hn]; decide⟩
    have hpass := column_pass_debouncing_diff cfg (inps 0) st hdiff
    rw [hmod] at hpass
    refine ⟨rfl, ?_, ?_⟩
    · show (matrix_scan cfg (inps 0) st).1.debouncing = _
      rw [scan_debouncing_diff cfg _ _ hdiff, hmod]
    · intro r hr
      show (matrix_scan cfg (inps 0) st).1.matrix r =
        if 0 + 1 < cfg.DEBOUNCE then st.matrix r
        else (matrix_scan cfg (inps 0) st).1.matrix_debouncing r
      cases hc : scan_commits cfg (inps 0) st
      · have h1 : cfg.DEBOUNCE ≠ 1 := by
          intro h1
          have := (scan_commits_iff cfg (inps 0) st).mpr (by rw [hpass, h1])
          rw [hc] at this
          exact Bool.noConfusion this
        rw [scan_matrix_keep cfg _ _ hc, if_pos (by omega)]
      · have h1 := (scan_commits_iff cfg (inps 0) st).mp hc
        rw [hpass] at h1
        rw [scan_matrix_commit cfg _ _ hc r hr, if_neg (by omega)]
  | succ i ih =>
    intro hn
    obtain ⟨h1, h2, h3⟩ := ih (by omega)
    have hsame : ¬ sample_differs cfg (inps (i + 1)) (run cfg inps st (i + 1)) := by
      rintro ⟨r, c, hr, hc, hne⟩
      apply hne
      by_cases hk : r = row ∧ c = col
      · obtain ⟨hk1, hk2⟩ := hk
        subst hk1; subst hk2
        rw [prev_bit_eq, h1, hkey (i + 1) hn]
        show ((matrix_scan cfg (inps 0) st).1.matrix_debouncing r).testBit c = true
        rw [scan_bit, if_pos ⟨hr, hc⟩, hkey 0 (by omega)]
      · exact (hothers (i + 1) r c hn hr hc hk).symm
    have hpass := column_pass_debouncing_same cfg _ _ hsame
    rw [h2] at hpass
    refine ⟨?_, ?_, ?_⟩
    · show (matrix_scan cfg (inps (i + 1)) (run cfg inps st (i + 1))).1.matrix_debouncing = _
      rw [scan_pending, column_pass_pending_same cfg _ _ hsame, h1]
    · show (matrix_scan cfg (inps (i + 1)) (run cfg inps st (i + 1))).1.debouncing = _
      rw [scan_debouncing_same cfg _ _ hsame, h2]
      omega
    · intro r hr
      show (matrix_scan cfg (inps (i + 1)) (run cfg inps st (i + 1))).1.matrix r =
        if i + 1 + 1 < cfg.DEBOUNCE then st.matrix r
        else (run cfg inps st 1).matrix_debouncing r
      cases hc : scan_commits cfg (inps (i + 1)) (run cfg inps st (i + 1))
      · have hne : cfg.DEBOUNCE - (i + 1) ≠ 1 := by
          intro e
          have := (scan_commits_iff cfg (inps (i + 1)) (run cfg inps st (i + 1))).mpr
            (by rw [hpass, e])
          rw [hc] at this
          exact Bool.noConfusion this
        rw [scan_matrix_keep cfg _ _ hc, h3 r hr]
        by_cases hlt : i + 1 < cfg.DEBOUNCE
        · rw [if_pos hlt, if_pos (by omega)]
        · rw [if_neg hlt, if_neg (by omega)]
      · have he := (scan_commits_iff cfg (inps (i + 1)) (run cfg inps st (i + 1))).mp hc
        rw [hpass] at he
        rw [scan_matrix_commit cfg _ _ hc r hr, scan_pending,
          column_pass_pending_same cfg _ _ hsame, h1, if_neg (by omega)]

/-- C2 (a sustained press is committed exactly once).  For a debounce depth
`D = DEBOUNCE` with `1 ≤ D` that the 8-bit counter can hold, from a settled state
(counter 0, committed rows equal to the pending rows) in which key `(row, col)` is off,
if the key is sampled asserted in `n ≥ D + 1` consecutive scans while every other
sampled bit equals its pending bit, then after the `n`-th scan the key is on in the
committed bitmap and exactly one of the `n` scans changed the committed bitmap. -/
theorem C2_sustained_press_committed_once (cfg : Config) (inps : Nat → Sample) (st : State)
    (row col n : Nat)
    (hD1 : 1 ≤ cfg.DEBOUNCE) (hD8 : cfg.DEBOUNCE < 256)
    (hrow : row < cfg.MATRIX_ROWS) (hcol : col < cfg.MATRIX_COLS)
    (_hsettled : st.debouncing = 0)
    (heq : ∀ r, r < cfg.MATRIX_ROWS → st.matrix r = st.matrix_debouncing r)
    (hoff : matrix_is_on st row col = false)
    (hn : cfg.DEBOUNCE + 1 ≤ n)
    (hkey : ∀ i, i < n → sampled (inps i) row col = true)
    (hothers : ∀ i r c, i < n → r < cfg.MATRIX_ROWS → c < cfg.MATRIX_COLS →
      ¬ (r = row ∧ c = col) → sampled (inps i) r c = prev_bit (run cfg inps st i) r c) :
    matrix_is_on (run cfg inps st n) row col = true ∧
    ∃! i, i < n ∧ committed_differs cfg (run cfg inps st i) (run cfg inps st (i + 1)) := by
  have hS := sustained_run cfg inps st row col n hD1 hD8 hrow hcol heq hoff hkey hothers
  have hM : ∀ i, i ≤ n → ∀ r, r < cfg.MATRIX_ROWS →
      (run cfg inps st i).matrix r =
        if i < cfg.DEBOUNCE then st.matrix r else (run cfg inps st 1).matrix_debouncing r := by
    intro i hi r hr
    cases i with
    | zero => rw [if_pos (by omega)]; rfl
    | succ i => exact (hS i (by omega)).2.2 r hr
  have hbit : ((run cfg inps st 1).matrix_debouncing row).testBit col = true := by
    show ((matrix_scan cfg (inps 0) st).1.matrix_debouncing row).testBit col = true
    rw [scan_bit, if_pos ⟨hrow, hcol⟩, hkey 0 (by omega)]
  refine ⟨?_, cfg.DEBOUNCE - 1, ⟨by omega, row, hrow, ?_⟩, ?_⟩
  · rw [matrix_is_on_eq, hM n (le_refl n) row hrow, if_neg (by omega), hbit]
  · rw [hM (cfg.DEBOUNCE - 1) (by omega) row hrow, if_pos (by omega),
      hM (cfg.DEBOUNCE - 1 + 1) (by omega) row hrow, if_neg (by omega)]
    intro e
    rw [matrix_is_on_eq, e, hbit] at hoff
    exact Bool.noConfusion hoff
  · rintro j ⟨hj, r, hr, hne⟩
    by_contra hjD
    apply hne
    rw [hM j (by omega) r hr, hM (j + 1) (by omega) r hr]
    by_cases hlt : j + 1 < cfg.DEBOUNCE
    · rw [if_pos (by omega), if_pos hlt]
    · rw [if_neg (by omega), if_neg hlt]

/-! ## Concrete samples -/

theorem sampled_rows_idle (col : Nat) : sampled_rows idle col = 0 := by
  unfold sampled_rows idle
  by_cases h : col = 12
  · rw [if_pos h]; decide
  · rw [if_neg h]; decide

theorem sampled_idle (row col : Nat) : sampled idle row col = false := by
  unfold sampled
  rw [sampled_rows_idle, curr_bit_eq, Nat.zero_testBit]

theorem sampled_rows_press00 (col : Nat) :
    sampled_rows press00 col = if col = 0 then 1 else 0 := by
  unfold sampled_rows press00
  by_cases h0 : col = 0
  · subst h0; decide
  · rw [if_neg h0, if_neg h0]
    by_cases h : col = 12
    · rw [if_pos h]; decide
    · rw [if_neg h]; decide

theorem sampled_press00_zero : sampled press00 0 0 = true := by
  unfold sampled
  rw [sampled_rows_press00]
  decide

theorem sampled_press00_col (row col : Nat) (h : col ≠ 0) : sampled press00 row col = false := by
  unfold sampled
  rw [sampled_rows_press00, if_neg h, curr_bit_eq, Nat.zero_testBit]

theorem sampled_press00_row (row col : Nat) (h : row ≠ 0) : sampled press00 row col = false := by
  unfold sampled
  rw [sampled_rows_press00, curr_bit_eq]
  split
  · exact Nat.testBit_lt_two_pow (by
      calc 1 < 2 ^ 1 := by decide
        _ ≤ 2 ^ row := Nat.pow_le_pow_right (by decide) (by omega))
  · exact Nat.zero_testBit _

/-- Witness of C1 on the board (6 rows, 18 columns, depth 5): after a one-scan blip of
key `(0, 0)` following startup and six more scans, the key is off in the committed bitmap. -/
theorem C1_transient_rejected_witness :
    matrix_is_on (run (lightsaber 5) blip (startup (lightsaber 5)) 7) 0 0 = false :=
  C1_transient_rejected (lightsaber 5) blip (startup (lightsaber 5)) 0 0 1
    (by decide) (by decide) (by decide) (by decide) (by decide) (by decide) (by decide)
    (fun i hi => by
      have h0 : i = 0 := by omega
      subst h0
      exact sampled_press00_zero)
    (fun i hi => by
      have h0 : i ≠ 0 := by omega
      show sampled (if i = 0 then press00 else idle) 0 0 = false
      rw [if_neg h0]
      exact sampled_idle 0 0)
    7

theorem sampled_press00_other (row col : Nat) (h : ¬ (row = 0 ∧ col = 0)) :
    sampled press00 row col = false := by
  by_cases hc : col = 0
  · exact sampled_press00_row row col (fun hr => h ⟨hr, hc⟩)
  · exact sampled_press00_col row col hc

/-- Witness of C2 on the board with depth 2: key `(0, 0)` held for three scans from the
all-off settled state is on afterwards and the committed bitmap changed in one scan. -/
theorem C2_sustained_press_committed_once_witness :
    matrix_is_on (run (lightsaber 2) (fun _ => press00) all_off 3) 0 0 = true ∧
    ∃! i, i < 3 ∧ committed_differs (lightsaber 2)
      (run (lightsaber 2) (fun _ => press00) all_off i)
      (run (lightsaber 2) (fun _ => press00) all_off (i + 1)) :=
  C2_sustained_press_committed_once (lightsaber 2) (fun _ => press00) all_off 0 0 3
    (by decide) (by decide) (by decide) (by decide) rfl (fun _ _ => rfl) (by decide) (by decide)
    (fun _ _ => sampled_press00_zero)
    (fun i r c _ hr hc hk => by
      rw [sampled_press00_other r c hk]
      cases i with
      | zero => rw [prev_bit_eq]; exact (Nat.zero_testBit c).symm
      | succ i =>
        show false = prev_bit (matrix_scan (lightsaber 2) press00 _).1 r c
        rw [scan_prev_bit _ _ _ _ _ hr hc, sampled_press00_other r c hk])

/-! ## Zero debounce depth -/

theorem startup_differs_press00 (d : Nat) :
    sample_differs (lightsaber d) press00 (startup (lightsaber d)) :=
  ⟨0, 0, show 0 < 6 by decide, show 0 < 18 by decide, by
    rw [sampled_press00_zero, prev_bit_eq]
    show (0 : Nat).testBit 0 ≠ true
    decide⟩

/-- With `DEBOUNCE = 0` a scan that starts with the counter at 0 never runs the copy
loop: the committed bitmap is left as it was. -/
theorem zero_debounce_keeps_matrix (cfg : Config) (inp : Sample) (st : State)
    (hD : cfg.DEBOUNCE = 0) (hd : st.debouncing = 0) :
    scan_commits cfg inp st = false ∧ (matrix_scan cfg inp st).1.matrix = st.matrix := by
  have h : scan_commits cfg inp st = false :=
    scan_no_commit_of_ne_one cfg inp st (by rw [hD]; decide) (by rw [hd]; decide)
  exact ⟨h, scan_matrix_keep cfg inp st h⟩

/-- C3 (zero-debounce mode), evaluated on the code: on the board built with
`DEBOUNCE = 0`, the first scan after startup that samples key `(0, 0)` asserted sets the
key in the pending bitmap but does not copy it: committed row 0 is still 0 and differs
from pending row 0. -/
theorem C3_zero_debounce_scan_does_not_commit :
    scan_commits (lightsaber 0) press00 (startup (lightsaber 0)) = false ∧
    (matrix_scan (lightsaber 0) press00 (startup (lightsaber 0))).1.matrix 0 = 0 ∧
    ((matrix_scan (lightsaber 0) press00 (startup (lightsaber 0))).1.matrix_debouncing 0).testBit 0
      = true ∧
    (matrix_scan (lightsaber 0) press00 (startup (lightsaber 0))).1.matrix 0 ≠
      (matrix_scan (lightsaber 0) press00 (startup (lightsaber 0))).1.matrix_debouncing 0 := by
  have h := zero_debounce_keeps_matrix (lightsaber 0) press00 (startup (lightsaber 0)) rfl rfl
  have hb : ((matrix_scan (lightsaber 0) press00
      (startup (lightsaber 0))).1.matrix_debouncing 0).testBit 0 = true := by
    rw [scan_bit, if_pos ⟨by decide, by decide⟩, sampled_press00_zero]
  have hm : (matrix_scan (lightsaber 0) press00 (startup (lightsaber 0))).1.matrix 0 = 0 := by
    rw [h.2]; rfl
  refine ⟨h.1, hm, hb, ?_⟩
  intro e
  rw [← e, hm] at hb
  exact Bool.noConfusion hb

/-! ## The value returned by a scan -/

/-- C4, counterexample: on the board with depth 5, the first scan after startup that
samples key `(0, 0)` asserted returns non-zero although the counter is 4 afterwards,
so "returns true iff the counter is 0 after the scan" fails. -/
theorem C4_return_not_stable_signal :
    ¬ ((matrix_scan (lightsaber 5) press00 (startup (lightsaber 5))).2 ≠ 0 ↔
        (matrix_scan (lightsaber 5) press00 (startup (lightsaber 5))).1.debouncing = 0) := by
  intro h
  have h1 : (matrix_scan (lightsaber 5) press00 (startup (lightsaber 5))).1.debouncing = 4 :=
    scan_debouncing_diff _ _ _ (startup_differs_press00 5)
  have h2 := h.mp (by decide)
  rw [h1] at h2
  exact absurd h2 (by decide)

/-- C4, amended: `matrix_scan` returns 1 for every configuration, state and sample,
whatever the counter is after the scan. -/
theorem C4_scan_returns_one (cfg : Config) (inp : Sample) (st : State) :
    (matrix_scan cfg inp st).2 = 1 :=
  rfl

/-! ## The worked example -/

set_option maxRecDepth 4000

theorem example_first_scan :
    (example_run 1).matrix_debouncing 0 = 1 ∧ (example_run 1).debouncing = 1 ∧
    matrix_is_modified (example_run 1) = false ∧
    (example_run 1).matrix 0 = 0 ∧ (example_run 1).matrix 1 = 0 := by
  decide

theorem example_second_scan :
    (example_run 2).debouncing = 0 ∧ matrix_is_modified (example_run 2) = true ∧
    (example_run 2).matrix 0 = 1 ∧ (example_run 2).matrix 1 = 0 := by
  decide

theorem example_third_scan :
    (example_run 3).debouncing = 0 ∧ matrix_is_modified (example_run 3) = true ∧
    (example_run 3).matrix 0 = 1 ∧ (example_run 3).matrix 1 = 0 := by
  decide

/-- C5, counterexample: the worked example as the spec gives it (counter 2 and unstable
after the first scan; counter 1, unstable and nothing committed after the second; counter
0, row 0 committed as 0b001 and stable after the third) does not hold for the code. -/
theorem C5_worked_example_fails :
    ¬ ((example_run 1).matrix_debouncing 0 = 0b001 ∧ (example_run 1).debouncing = 2 ∧
        matrix_is_modified (example_run 1) = false ∧
       (example_run 2).debouncing = 1 ∧ matrix_is_modified (example_run 2) = false ∧
        (example_run 2).matrix 0 = 0 ∧ (example_run 2).matrix 1 = 0 ∧
       (example_run 3).debouncing = 0 ∧ (example_run 3).matrix 0 = 0b001 ∧
        matrix_is_modified (example_run 3) = true) := by
  intro h
  have h1 := example_first_scan.2.1
  rw [h.2.1] at h1
  exact absurd h1 (by decide)

/-- C5, amended: in the worked example (rows = 2, cols = 3, depth 2, all-zero bitmaps,
settled counter, key `(0, 0)` sampled asserted in every scan) the first scan leaves
pending row 0 = 0b001, counter 1, not stable, committed all zero; the second scan leaves
counter 0, committed row 0 = 0b001 and stable; the third scan leaves the same. -/
theorem C5_worked_example_amended :
    ((example_run 1).matrix_debouncing 0 = 0b001 ∧ (example_run 1).debouncing = 1 ∧
      matrix_is_modified (example_run 1) = false ∧
      (example_run 1).matrix 0 = 0 ∧ (example_run 1).matrix 1 = 0) ∧
    ((example_run 2).debouncing = 0 ∧ matrix_is_modified (example_run 2) = true ∧
      (example_run 2).matrix 0 = 0b001 ∧ (example_run 2).matrix 1 = 0) ∧
    ((example_run 3).debouncing = 0 ∧ matrix_is_modified (example_run 3) = true ∧
      (example_run 3).matrix 0 = 0b001 ∧ (example_run 3).matrix 1 = 0) :=
  ⟨example_first_scan, example_second_scan, example_third_scan⟩

/-! ## Commit -/

/-- C6 (commit only on the 1 -> 0 transition, as a full copy).  For every configuration,
state and sample, `matrix_scan` runs the copy into the committed bitmap exactly when the
counter is 1 after the column pass; then every row of the committed bitmap equals the
pending row after the scan and the counter is 0; otherwise every row of the committed
bitmap is unchanged. -/
theorem C6_commit_iff_counter_one (cfg : Config) (inp : Sample) (st : State) :
    (scan_commits cfg inp st = true ↔ (column_pass cfg inp st).debouncing = 1) ∧
    (scan_commits cfg inp st = true →
      (matrix_scan cfg inp st).1.debouncing = 0 ∧
      ∀ r, r < cfg.MATRIX_ROWS →
        (matrix_scan cfg inp st).1.matrix r = (matrix_scan cfg inp st).1.matrix_debouncing r) ∧
    (scan_commits cfg inp st = false →
      ∀ r, (matrix_scan cfg inp st).1.matrix r = st.matrix r) := by
  refine ⟨scan_commits_iff cfg inp st, ?_, ?_⟩
  · intro h
    refine ⟨?_, fun r hr => scan_matrix_commit cfg inp st h r hr⟩
    rw [scan_debouncing, (scan_commits_iff cfg inp st).mp h]
  · intro h r
    rw [scan_matrix_keep cfg inp st h]

/-! ## Counter reset on churn -/

/-- After a scan that left the counter at `DEBOUNCE - 1`, the counter after `i` more
scans is at least `DEBOUNCE - 1 - i`, whatever is sampled. -/
theorem counter_lower_bound (cfg : Config) (inps : Nat → Sample) (st : State)
    (hD8 : cfg.DEBOUNCE < 256) (hst : cfg.DEBOUNCE ≤ st.debouncing + 1) :
    ∀ i, i + 1 < cfg.DEBOUNCE → cfg.DEBOUNCE ≤ (run cfg inps st i).debouncing + i + 1 := by
  have hmod : cfg.DEBOUNCE % 256 = cfg.DEBOUNCE := Nat.mod_eq_of_lt hD8
  intro i
  induction i with
  | zero => intro _; exact hst
  | succ i ih =>
    intro hi
    have h := ih (by omega)
    show cfg.DEBOUNCE ≤ (matrix_scan cfg (inps i) (run cfg inps st i)).1.debouncing + (i + 1) + 1
    rw [scan_debouncing]
    rcases column_pass_debouncing_cases cfg (inps i) (run cfg inps st i) with h1 | h1
    · rw [h1, hmod]; omega
    · rw [h1]; omega

/-- C7 (counter reset on churn).  For a debounce depth `D = DEBOUNCE` with `1 ≤ D` that the
8-bit counter can hold and every state, whatever its counter, a scan in which some sampled
bit differs from its pending bit leaves the counter at `D - 1`; that scan runs no copy when
`D > 1`, and none of the next `D - 2` scans does, whatever they sample: the earliest copy is
in the `(D - 1)`-th scan after it. -/
theorem C7_counter_reset_on_churn (cfg : Config) (inp : Sample) (st : State)
    (_hD1 : 1 ≤ cfg.DEBOUNCE) (hD8 : cfg.DEBOUNCE < 256)
    (hdiff : sample_differs cfg inp st) :
    (matrix_scan cfg inp st).1.debouncing = cfg.DEBOUNCE - 1 ∧
    (1 < cfg.DEBOUNCE → scan_commits cfg inp st = false) ∧
    ∀ (inps : Nat → Sample) (i : Nat), i + 2 < cfg.DEBOUNCE →
      scan_commits cfg (inps i) (run cfg inps (matrix_scan cfg inp st).1 i) = false := by
  have hmod : cfg.DEBOUNCE % 256 = cfg.DEBOUNCE := Nat.mod_eq_of_lt hD8
  have h1 : (matrix_scan cfg inp st).1.debouncing = cfg.DEBOUNCE - 1 := by
    rw [scan_debouncing_diff cfg inp st hdiff, hmod]
  refine ⟨h1, ?_, ?_⟩
  · intro hD
    cases h : scan_commits cfg inp st
    · rfl
    · have h2 := (scan_commits_iff cfg inp st).mp h
      rw [column_pass_debouncing_diff cfg inp st hdiff, hmod] at h2
      omega
  · intro inps i hi
    have hb := counter_lower_bound cfg inps (matrix_scan cfg inp st).1 hD8 (by omega) i (by omega)
    apply scan_no_commit_of_ne_one
    · rw [hmod]; omega
    · omega

/-- Witness of C7 on the board with depth 5: the first scan after startup samples key
`(0, 0)` asserted, which differs from its pending bit; the counter is 4 afterwards, that
scan copies nothing and neither does the third idle scan after it. -/
theorem C7_counter_reset_on_churn_witness :
    (matrix_scan (lightsaber 5) press00 (startup (lightsaber 5))).1.debouncing = 5 - 1 ∧
    scan_commits (lightsaber 5) press00 (startup (lightsaber 5)) = false ∧
    scan_commits (lightsaber 5) idle
      (run (lightsaber 5) (fun _ => idle)
        (matrix_scan (lightsaber 5) press00 (startup (lightsaber 5))).1 2) = false :=
  ⟨(C7_counter_reset_on_churn (lightsaber 5) press00 (startup (lightsaber 5))
      (by decide) (by decide) (startup_differs_press00 5)).1,
   (C7_counter_reset_on_churn (lightsaber 5) press00 (startup (lightsaber 5))
      (by decide) (by decide) (startup_differs_press00 5)).2.1 (by decide),
   (C7_counter_reset_on_churn (lightsaber 5) press00 (startup (lightsaber 5))
      (by decide) (by decide) (startup_differs_press00 5)).2.2 (fun _ => idle) 2 (by decide)⟩

/-! ## Initialisation and reachable states -/

theorem init_rows_debouncing (st : State) (k : Nat) :
    ((List.range k).foldl matrix_init_row st).debouncing = st.debouncing := by
  induction k with
  | zero => rfl
  | succ k ih =>
    rw [List.range_succ, List.foldl_append, List.foldl_cons, List.foldl_nil]
    exact ih

theorem init_rows_matrix (st : State) (k r : Nat) :
    ((List.range k).foldl matrix_init_row st).matrix r = if r < k then 0 else st.matrix r := by
  induction k with
  | zero => simp
  | succ k ih =>
    rw [List.range_succ, List.foldl_append, List.foldl_cons, List.foldl_nil]
    show store _ k 0 r = _
    unfold store
    by_cases h1 : r = k
    · subst h1
      rw [if_pos rfl, if_pos (by omega)]
    · rw [if_neg h1, ih]
      by_cases h2 : r < k
      · rw [if_pos h2, if_pos (by omega)]
      · rw [if_neg h2, if_neg (by omega)]

theorem init_rows_pending (st : State) (k r : Nat) :
    ((List.range k).foldl matrix_init_row st).matrix_debouncing r =
      if r < k then 0 else st.matrix_debouncing r := by
  induction k with
  | zero => simp
  | succ k ih =>
    rw [List.range_succ, List.foldl_append, List.foldl_cons, List.foldl_nil]
    show store _ k 0 r = _
    unfold store
    by_cases h1 : r = k
    · subst h1
      rw [if_pos rfl, if_pos (by omega)]
    · rw [if_neg h1, ih]
      by_cases h2 : r < k
      · rw [if_pos h2, if_pos (by omega)]
      · rw [if_neg h2, if_neg (by omega)]

theorem matrix_init_debouncing (cfg : Config) (st : State) :
    (matrix_init cfg st).debouncing = st.debouncing :=
  init_rows_debouncing st _

theorem matrix_init_matrix (cfg : Config) (st : State) (r : Nat) :
    (matrix_init cfg st).matrix r = if r < cfg.MATRIX_ROWS then 0 else st.matrix r :=
  init_rows_matrix st _ r

theorem matrix_init_pending (cfg : Config) (st : State) (r : Nat) :
    (matrix_init cfg st).matrix_debouncing r =
      if r < cfg.MATRIX_ROWS then 0 else st.matrix_debouncing r :=
  init_rows_pending st _ r

/-- C8 (zero-debounce mode is always stable).  With `DEBOUNCE = 0`, in every state
reachable from startup by calls of `matrix_init` and `matrix_scan` with arbitrary samples,
`matrix_is_modified` returns true. -/
theorem C8_zero_debounce_always_stable (cfg : Config) (st : State)
    (hD : cfg.DEBOUNCE = 0) (h : Reachable cfg st) :
    matrix_is_modified st = true := by
  have hz : st.debouncing = 0 := by
    induction h with
    | startup => show cfg.DEBOUNCE % 256 = 0; rw [hD]
    | init s _ ih => rw [matrix_init_debouncing]; exact ih
    | scan s inp _ ih =>
      rw [scan_debouncing]
      rcases column_pass_debouncing_cases cfg inp s with h1 | h1
      · rw [h1, hD]
      · rw [h1, ih]
  unfold matrix_is_modified
  rw [if_neg (by simp [hz])]

/-- Witness of C8 on the board built with `DEBOUNCE = 0`: the state after startup,
a scan with key `(0, 0)` asserted, `matrix_init` and an idle scan. -/
theorem C8_zero_debounce_always_stable_witness :
    matrix_is_modified
      (matrix_scan (lightsaber 0) idle
        (matrix_init (lightsaber 0)
          (matrix_scan (lightsaber 0) press00 (startup (lightsaber 0))).1)).1 = true :=
  C8_zero_debounce_always_stable (lightsaber 0) _ rfl
    (Reachable.scan _ idle (Reachable.init _ (Reachable.scan _ press00 Reachable.startup)))

/-! ## Key count -/

theorem bitpop32_eq_card (x : Nat) :
    bitpop32 x = ((Finset.range 32).filter (fun j => x.testBit j = true)).card := by
  unfold bitpop32
  rw [Finset.card_def, Finset.filter_val, Finset.range_val, Multiset.range,
    Multiset.filter_coe, Multiset.coe_card]
  congr 1
  apply List.filter_congr
  intro j _
  simp

theorem bitpop32_le (x : Nat) : bitpop32 x ≤ 32 := by
  unfold bitpop32
  calc ((List.range 32).filter (fun j => x.testBit j)).length
      ≤ (List.range 32).length := List.length_filter_le _ _
    _ = 32 := List.length_range 32

/-- An 8-bit accumulation of summands bounded by `B` does not wrap while `k * B < 256`. -/
theorem key_count_fold (f : Nat → Nat) (B k : Nat)
    (hf : ∀ i, i < k → f i ≤ B) (hB : k * B < 256) :
    (List.range k).foldl (fun count i => (count + f i) % 256) 0 = ∑ i ∈ Finset.range k, f i ∧
    ∑ i ∈ Finset.range k, f i ≤ k * B := by
  induction k with
  | zero => simp
  | succ k ih =>
    have hk : k * B ≤ (k + 1) * B := Nat.mul_le_mul_right B (by omega)
    obtain ⟨h1, h2⟩ := ih (fun i hi => hf i (by omega)) (by omega)
    have h3 := hf k (by omega)
    have h4 : (k + 1) * B = k * B + B := by ring
    rw [List.range_succ, List.foldl_append, List.foldl_cons, List.foldl_nil, h1,
      Finset.sum_range_succ]
    refine ⟨Nat.mod_eq_of_lt (by omega), by omega⟩

/-- C9 (population count).  On the board (`MATRIX_ROWS = 6`, 32-bit rows), for every
state, `matrix_key_count` returns the sum over the six rows of the number of set bits of
that row of the committed bitmap; the sum is below 256, so the 8-bit accumulator does
not wrap. -/
theorem C9_key_count_is_popcount_sum (d : Nat) (st : State) :
    matrix_key_count (lightsaber d) st =
      ∑ i ∈ Finset.range 6,
        ((Finset.range 32).filter (fun j => (st.matrix i).testBit j = true)).card ∧
    ∑ i ∈ Finset.range 6,
        ((Finset.range 32).filter (fun j => (st.matrix i).testBit j = true)).card < 256 := by
  have h := key_count_fold (fun i => bitpop32 (st.matrix i)) 32 6
    (fun i _ => bitpop32_le _) (by decide)
  have e : matrix_key_count (lightsaber d) st =
      (List.range 6).foldl (fun count i => (count + bitpop32 (st.matrix i)) % 256) 0 := rfl
  rw [e, h.1]
  simp only [bitpop32_eq_card] at h ⊢
  exact ⟨trivial, by omega⟩

/-- A scan leaves each committed row as it was or equal to the pending row. -/
theorem scan_matrix_cases (cfg : Config) (inp : Sample) (st : State) (r : Nat) :
    (matrix_scan cfg inp st).1.matrix r = st.matrix r ∨
    (matrix_scan cfg inp st).1.matrix r = (matrix_scan cfg inp st).1.matrix_debouncing r := by
  by_cases h : (column_pass cfg inp st).debouncing = 1
  · have e : (matrix_scan cfg inp st).1.matrix r =
        if r < cfg.MATRIX_ROWS then (column_pass cfg inp st).matrix_debouncing r
        else (column_pass cfg inp st).matrix r := settle_matrix_commit cfg _ h r
    by_cases hr : r < cfg.MATRIX_ROWS
    · right; rw [e, if_pos hr, scan_pending]
    · left; rw [e, if_neg hr, column_pass_matrix]
  · left
    show (settle cfg _).1.matrix r = _
    rw [settle_matrix_keep cfg _ h, column_pass_matrix]

/-- In a reachable state no bit at a position `≥ MATRIX_COLS` is set, in either bitmap. -/
theorem reachable_high_bits_clear (cfg : Config) (st : State) (h : Reachable cfg st) :
    ∀ r j, cfg.MATRIX_COLS ≤ j →
      (st.matrix r).testBit j = false ∧ (st.matrix_debouncing r).testBit j = false := by
  induction h with
  | startup => intro r j _; exact ⟨Nat.zero_testBit j, Nat.zero_testBit j⟩
  | init s _ ih =>
    intro r j hj
    rw [matrix_init_matrix, matrix_init_pending]
    by_cases hr : r < cfg.MATRIX_ROWS
    · rw [if_pos hr, if_pos hr]; exact ⟨Nat.zero_testBit j, Nat.zero_testBit j⟩
    · rw [if_neg hr, if_neg hr]; exact ih r j hj
  | scan s inp _ ih =>
    intro r j hj
    have hp : ((matrix_scan cfg inp s).1.matrix_debouncing r).testBit j = false := by
      rw [scan_bit, if_neg (by omega)]
      exact (ih r j hj).2
    refine ⟨?_, hp⟩
    rcases scan_matrix_cases cfg inp s r with e | e
    · rw [e]; exact (ih r j hj).1
    · rw [e]; exact hp

/-- The population count of a row with no bit set at a position `≥ C`, `C ≤ 32`, is the
number of columns below `C` whose bit is set. -/
theorem bitpop32_eq_cols (x C : Nat) (hC : C ≤ 32)
    (hx : ∀ j, C ≤ j → x.testBit j = false) :
    bitpop32 x = ((Finset.range C).filter (fun c => x.testBit c = true)).card := by
  rw [bitpop32_eq_card]
  congr 1
  ext j
  simp only [Finset.mem_filter, Finset.mem_range]
  constructor
  · rintro ⟨_, h2⟩
    refine ⟨?_, h2⟩
    by_contra hlt
    rw [hx j (by omega)] at h2
    exact Bool.noConfusion h2
  · rintro ⟨h1, h2⟩
    exact ⟨by omega, h2⟩

theorem card_asserted_keys (cfg : Config) (st : State) :
    (asserted_keys cfg st).card =
      ∑ r ∈ Finset.range cfg.MATRIX_ROWS,
        ((Finset.range cfg.MATRIX_COLS).filter (fun c => matrix_is_on st r c = true)).card := by
  unfold asserted_keys
  rw [Finset.card_filter, Finset.sum_product]
  apply Finset.sum_congr rfl
  intro r _
  rw [Finset.card_filter]

/-- C10 (key count equals the number of asserted keys).  For a matrix whose columns fit a
32-bit row and whose keys fit the 8-bit count (`MATRIX_COLS ≤ 32`,
`MATRIX_ROWS * MATRIX_COLS < 256`, as on the 6 x 18 board), in every state reachable from
startup by calls of `matrix_init` and `matrix_scan` with arbitrary samples,
`matrix_key_count` is the number of pairs `(row, col)` with `row < MATRIX_ROWS` and
`col < MATRIX_COLS` for which `matrix_is_on` is true. -/
theorem C10_key_count_counts_asserted_keys (cfg : Config) (st : State)
    (hC : cfg.MATRIX_COLS ≤ 32) (hRC : cfg.MATRIX_ROWS * cfg.MATRIX_COLS < 256)
    (h : Reachable cfg st) :
    matrix_key_count cfg st = (asserted_keys cfg st).card := by
  have hclear := reachable_high_bits_clear cfg st h
  have hrow : ∀ r, bitpop32 (st.matrix r) =
      ((Finset.range cfg.MATRIX_COLS).filter (fun c => matrix_is_on st r c = true)).card := by
    intro r
    rw [bitpop32_eq_cols (st.matrix r) cfg.MATRIX_COLS hC (fun j hj => (hclear r j hj).1)]
    simp only [matrix_is_on_eq]
  have hle : ∀ i, i < cfg.MATRIX_ROWS → bitpop32 (st.matrix i) ≤ cfg.MATRIX_COLS := by
    intro i _
    rw [hrow i]
    calc _ ≤ (Finset.range cfg.MATRIX_COLS).card := Finset.card_filter_le _ _
      _ = cfg.MATRIX_COLS := Finset.card_range _
  have hfold := key_count_fold (fun i => bitpop32 (st.matrix i)) cfg.MATRIX_COLS
    cfg.MATRIX_ROWS hle hRC
  rw [card_asserted_keys]
  unfold matrix_key_count
  rw [hfold.1]
  exact Finset.sum_congr rfl (fun r _ => hrow r)

/-- Witness of C10 on the board with depth 1: after startup and one scan with key
`(0, 0)` asserted (which is committed at once) the key count is the number of asserted
keys. -/
theorem C10_key_count_counts_asserted_keys_witness :
    matrix_key_count (lightsaber 1)
        (matrix_scan (lightsaber 1) press00 (startup (lightsaber 1))).1 =
      (asserted_keys (lightsaber 1)
        (matrix_scan (lightsaber 1) press00 (startup (lightsaber 1))).1).card :=
  C10_key_count_counts_asserted_keys (lightsaber 1) _ (by decide) (by decide)
    (Reachable.scan _ press00 Reachable.startup)

/-! ## Queries -/

/-- C11, counterexample: on the board (18 columns, 32-bit rows), `matrix_is_on(0, 18)` at
startup is out of range but does not fail with an out-of-range condition: it returns a
value. -/
theorem C11_out_of_range_query_returns :
    ¬ ((lightsaber 5).MATRIX_COLS ≤ 18 →
        is_on_query (lightsaber 5) (startup (lightsaber 5)) 0 18 = QueryResult.out_of_range) := by
  intro h
  have h1 := h (by decide)
  unfold is_on_query at h1
  rw [if_pos ⟨by decide, by decide⟩] at h1
  exact QueryResult.noConfusion h1

/-- C11, amended: on the board (6 rows, 18 columns, 32-bit rows), a call
`matrix_is_on(row, col)` with `row < MATRIX_ROWS` and `MATRIX_COLS ≤ col < 32` does not fail:
it returns bit `col` of `matrix[row]`, and in every state reachable from startup that bit is
clear, so the call returns false.  Nothing is stated for `row ≥ MATRIX_ROWS` or
`col ≥ 32`, where the C language defines no behaviour. -/
theorem C11_out_of_range_col_returns_bit (d : Nat) (st : State) (row col : Nat)
    (hrow : row < (lightsaber d).MATRIX_ROWS)
    (hlo : (lightsaber d).MATRIX_COLS ≤ col) (hhi : col < ROW_BITS) :
    is_on_query (lightsaber d) st row col =
      QueryResult.returned ((st.matrix row).testBit col) ∧
    (Reachable (lightsaber d) st →
      is_on_query (lightsaber d) st row col = QueryResult.returned false) := by
  have e : is_on_query (lightsaber d) st row col =
      QueryResult.returned ((st.matrix row).testBit col) := by
    unfold is_on_query
    rw [if_pos ⟨hrow, hhi⟩, matrix_is_on_eq]
  refine ⟨e, ?_⟩
  intro hr
  rw [e, (reachable_high_bits_clear (lightsaber d) st hr row col hlo).1]

/-- Witness of C11 on the board with depth 5: after startup and a scan that samples key
`(0, 0)` asserted, `matrix_is_on(0, 18)` returns false. -/
theorem C11_out_of_range_col_returns_bit_witness :
    is_on_query (lightsaber 5) (matrix_scan (lightsaber 5) press00 (startup (lightsaber 5))).1
      0 18 = QueryResult.returned false :=
  (C11_out_of_range_col_returns_bit 5 _ 0 18 (by decide) (by decide) (by decide)).2
    (Reachable.scan _ press00 Reachable.startup)

/-! ## Initialisation zeroes the bitmaps -/

theorem bitpop32_zero : bitpop32 0 = 0 := by
  decide

theorem key_count_zero (m : Nat → Nat) (k : Nat) (h : ∀ i, i < k → m i = 0) :
    (List.range k).foldl (fun count i => (count + bitpop32 (m i)) % 256) 0 = 0 := by
  induction k with
  | zero => rfl
  | succ k ih =>
    rw [List.range_succ, List.foldl_append, List.foldl_cons, List.foldl_nil,
      ih (fun i hi => h i (by omega)), h k (by omega), bitpop32_zero]

/-- C12 (initialisation zeroes the bitmaps).  For every configuration and prior state,
after `matrix_init` every row below `MATRIX_ROWS` of the committed and of the pending bitmap
is 0, `matrix_key_count` is 0 and `matrix_is_on` is false for every in-range key. -/
theorem C12_init_zeroes_bitmaps (cfg : Config) (st : State) :
    (∀ r, r < cfg.MATRIX_ROWS →
      (matrix_init cfg st).matrix r = 0 ∧ (matrix_init cfg st).matrix_debouncing r = 0) ∧
    matrix_key_count cfg (matrix_init cfg st) = 0 ∧
    ∀ row col, row < cfg.MATRIX_ROWS → col < cfg.MATRIX_COLS →
      matrix_is_on (matrix_init cfg st) row col = false := by
  have hz : ∀ r, r < cfg.MATRIX_ROWS → (matrix_init cfg st).matrix r = 0 := by
    intro r hr
    rw [matrix_init_matrix, if_pos hr]
  refine ⟨?_, ?_, ?_⟩
  · intro r hr
    refine ⟨hz r hr, ?_⟩
    rw [matrix_init_pending, if_pos hr]
  · exact key_count_zero _ _ hz
  · intro row col hr _
    rw [matrix_is_on_eq, hz row hr, Nat.zero_testBit]

/-! ## The stable signal -/

/-- C13 (`is_stable` reflects the counter).  For every state, `matrix_is_modified` returns
true if and only if the settle counter `debouncing` is 0. -/
theorem C13_is_modified_iff_counter_zero (st : State) :
    matrix_is_modified st = true ↔ st.debouncing = 0 := by
  unfold matrix_is_modified
  by_cases h : st.debouncing = 0
  · simp [h]
  · simp [h]

/-! ## Reads are pure -/

theorem read_call_state (cfg : Config) (st : State) (q : Read) :
    (read_call cfg st q).1 = st := by
  cases q <;> rfl

theorem after_reads_state (cfg : Config) (st : State) (qs : List Read) :
    after_reads cfg st qs = st := by
  unfold after_reads
  induction qs with
  | nil => rfl
  | cons q qs ih => rw [List.foldl_cons, read_call_state]; exact ih

/-- C14 (reads are pure and idempotent).  Each call of `matrix_get_row`, `matrix_is_on`,
`matrix_is_modified` or `matrix_key_count` leaves the state (committed, pending, counter)
as it was, so after any sequence of read calls the state is unchanged and a read returns
what it returned before them; and `matrix_is_on(row, col)` is bit `col` of
`matrix_get_row(row)`. -/
theorem C14_reads_pure_idempotent (cfg : Config) (st : State) (qs : List Read) (q : Read)
    (row col : Nat) :
    (read_call cfg st q).1 = st ∧
    after_reads cfg st qs = st ∧
    (read_call cfg (after_reads cfg st qs) q).2 = (read_call cfg st q).2 ∧
    (matrix_is_on st row col = true ↔ (matrix_get_row st row).testBit col = true) := by
  refine ⟨read_call_state cfg st q, after_reads_state cfg st qs, ?_, ?_⟩
  · rw [after_reads_state]
  · rw [matrix_is_on_eq]
    rfl

/-! ## The pending bitmap after a scan -/

theorem read_fwkey_cases (p : Pins) : read_fwkey p = 0 ∨ read_fwkey p = 2 ^ 3 := by
  unfold read_fwkey
  split
  · exact Or.inl rfl
  · exact Or.inr rfl

theorem read_fwkey_testBit (p : Pins) (row : Nat) (h : row ≠ 3) :
    (read_fwkey p).testBit row = false := by
  rcases read_fwkey_cases p with e | e
  · rw [e, Nat.zero_testBit]
  · rw [e, Nat.testBit_two_pow]
    exact decide_eq_false (fun e3 => h e3.symm)

theorem read_rows_same_pins (p1 p2 : Pins) (hd : p1.PIND = p2.PIND) (hb : p1.PINB = p2.PINB) :
    read_rows p1 = read_rows p2 := by
  unfold read_rows
  rw [hd, hb]

/-- The firmware-key pin influences the sampled bit of no key other than `(3, 12)`. -/
theorem sampled_same_row_pins (inp1 inp2 : Sample) (h : same_row_pins inp1 inp2)
    (row col : Nat) (hk : ¬ (row = 3 ∧ col = 12)) :
    sampled inp1 row col = sampled inp2 row col := by
  have hr := read_rows_same_pins (inp1 col) (inp2 col) (h col).1 (h col).2
  unfold sampled sampled_rows
  rw [curr_bit_eq, curr_bit_eq]
  by_cases hc : col = 12
  · have h3 : row ≠ 3 := fun e => hk ⟨e, hc⟩
    simp only [if_pos hc]
    rw [Nat.testBit_or, Nat.testBit_or, read_fwkey_testBit _ _ h3, read_fwkey_testBit _ _ h3, hr]
  · simp only [if_neg hc]
    rw [hr]

/-- C15 (a scan makes pending the transposed sample).  For every configuration, state and
sample, after `matrix_scan` bit `col` of `matrix_debouncing[row]` equals bit `row` of the
row sample taken while column `col` was selected, for `row < MATRIX_ROWS` and
`col < MATRIX_COLS`; that sample is `read_rows()`, OR-ed with `read_fwkey()` (0 or bit 3)
for column 12 only; every pending bit at a position `≥ MATRIX_COLS` is unchanged; and two
samples with the same row pins (differing at most in the firmware key) give the same
pending bit at every position other than `(row 3, col 12)`. -/
theorem C15_pending_is_transposed_sample (cfg : Config) (inp : Sample) (st : State) :
    (∀ row col, row < cfg.MATRIX_ROWS → col < cfg.MATRIX_COLS →
      ((matrix_scan cfg inp st).1.matrix_debouncing row).testBit col =
        (sampled_rows inp col).testBit row) ∧
    (∀ col, sampled_rows inp col =
      if col = 12 then read_rows (inp col) ||| read_fwkey (inp col) else read_rows (inp col)) ∧
    (∀ col, read_fwkey (inp col) = 0 ∨ read_fwkey (inp col) = 2 ^ 3) ∧
    (∀ row col, cfg.MATRIX_COLS ≤ col →
      ((matrix_scan cfg inp st).1.matrix_debouncing row).testBit col =
        (st.matrix_debouncing row).testBit col) ∧
    (∀ inp2 : Sample, same_row_pins inp inp2 → ∀ row col, ¬ (row = 3 ∧ col = 12) →
      ((matrix_scan cfg inp st).1.matrix_debouncing row).testBit col =
        ((matrix_scan cfg inp2 st).1.matrix_debouncing row).testBit col) := by
  refine ⟨?_, fun _ => rfl, fun col => read_fwkey_cases _, ?_, ?_⟩
  · intro row col hr hc
    rw [scan_bit, if_pos ⟨hr, hc⟩]
    exact curr_bit_eq _ _
  · intro row col hc
    rw [scan_bit, if_neg (by omega)]
  · intro inp2 h row col hk
    rw [scan_bit, scan_bit]
    by_cases hin : row < cfg.MATRIX_ROWS ∧ col < cfg.MATRIX_COLS
    · rw [if_pos hin, if_pos hin]
      exact sampled_same_row_pins inp inp2 h row col hk
    · rw [if_neg hin, if_neg hin]

/-- Witness of C15 on the board: with only the firmware key pressed, the scan after
startup sets pending bit `(row 3, col 12)`. -/
theorem C15_pending_is_transposed_sample_witness :
    ((matrix_scan (lightsaber 5) fwkey_only
      (startup (lightsaber 5))).1.matrix_debouncing 3).testBit 12 = true :=
  ((C15_pending_is_transposed_sample (lightsaber 5) fwkey_only (startup (lightsaber 5))).1
    3 12 (by decide) (by decide)).trans (by decide)

/-! ## Unchanged rows -/

/-- C16 (unchanged rows are untouched).  For every configuration, state and sample, a row
whose sampled bits equal its pending bits in every column keeps its pending row; and if
no sampled bit of the matrix differs from its pending bit, the scan leaves the pending
bitmap unchanged and the counter at its previous value minus 1, or at 0 if it was 0. -/
theorem C16_unchanged_rows_untouched (cfg : Config) (inp : Sample) (st : State) :
    (∀ row, (∀ col, col < cfg.MATRIX_COLS → sampled inp row col = prev_bit st row col) →
      (matrix_scan cfg inp st).1.matrix_debouncing row = st.matrix_debouncing row) ∧
    (¬ sample_differs cfg inp st →
      (matrix_scan cfg inp st).1.matrix_debouncing = st.matrix_debouncing ∧
      (matrix_scan cfg inp st).1.debouncing =
        if st.debouncing = 0 then 0 else st.debouncing - 1) := by
  constructor
  · intro row h
    apply Nat.eq_of_testBit_eq
    intro j
    rw [scan_bit]
    split
    · next hin => rw [h j hin.2, prev_bit_eq]
    · rfl
  · intro h
    refine ⟨?_, ?_⟩
    · rw [scan_pending, column_pass_pending_same cfg inp st h]
    · rw [scan_debouncing_same cfg inp st h]
      split
      · next h0 => rw [h0]
      · rfl

theorem startup_same_idle (cfg : Config) : ¬ sample_differs cfg idle (startup cfg) := by
  rintro ⟨r, c, _, _, hne⟩
  apply hne
  rw [sampled_idle, prev_bit_eq]
  exact Nat.zero_testBit c

/-- Witness of C16 on the board with depth 5: an idle scan after startup leaves the pending
rows at 0 and brings the counter from 5 to 4. -/
theorem C16_unchanged_rows_untouched_witness :
    (matrix_scan (lightsaber 5) idle (startup (lightsaber 5))).1.matrix_debouncing 0 = 0 ∧
    (matrix_scan (lightsaber 5) idle (startup (lightsaber 5))).1.debouncing = 4 :=
  ⟨(C16_unchanged_rows_untouched (lightsaber 5) idle (startup (lightsaber 5))).1 0
      (fun col _ => by rw [sampled_idle, prev_bit_eq]; exact (Nat.zero_testBit col).symm),
   ((C16_unchanged_rows_untouched (lightsaber 5) idle (startup (lightsaber 5))).2
      (startup_same_idle (lightsaber 5))).2⟩

/-! ## From stable to settling -/

theorem all_off_differs_press00 (d : Nat) :
    sample_differs (lightsaber d) press00 all_off :=
  ⟨0, 0, show 0 < 6 by decide, show 0 < 18 by decide, by
    rw [sampled_press00_zero, prev_bit_eq]
    show (0 : Nat).testBit 0 ≠ true
    decide⟩

/-- C17, counterexample: on the board with depth 1, from the all-off state with counter 0,
a scan that samples key `(0, 0)` asserted sees a change, yet the counter is 0 and
`matrix_is_modified` is true after it. -/
theorem C17_depth_one_stays_stable :
    ¬ (all_off.debouncing = 0 → sample_differs (lightsaber 1) press00 all_off →
        0 < (matrix_scan (lightsaber 1) press00 all_off).1.debouncing ∧
        matrix_is_modified (matrix_scan (lightsaber 1) press00 all_off).1 = false) := by
  intro h
  have h1 := (h rfl (all_off_differs_press00 1)).1
  rw [scan_debouncing_diff _ _ _ (all_off_differs_press00 1)] at h1
  exact absurd h1 (by decide)

/-- C17, amended: for a debounce depth `D = DEBOUNCE` with `2 ≤ D` that the 8-bit counter
can hold and every state with counter 0, if some sampled bit differs from its pending bit
in a scan, then after the scan the counter is `D - 1 > 0` and `matrix_is_modified`
returns false. -/
theorem C17_idle_to_settling (cfg : Config) (inp : Sample) (st : State)
    (hD2 : 2 ≤ cfg.DEBOUNCE) (hD8 : cfg.DEBOUNCE < 256)
    (_hst : st.debouncing = 0) (hdiff : sample_differs cfg inp st) :
    (matrix_scan cfg inp st).1.debouncing = cfg.DEBOUNCE - 1 ∧
    0 < (matrix_scan cfg inp st).1.debouncing ∧
    matrix_is_modified (matrix_scan cfg inp st).1 = false := by
  have h1 : (matrix_scan cfg inp st).1.debouncing = cfg.DEBOUNCE - 1 := by
    rw [scan_debouncing_diff cfg inp st hdiff, Nat.mod_eq_of_lt hD8]
  refine ⟨h1, by omega, ?_⟩
  unfold matrix_is_modified
  rw [if_pos (by omega)]

/-- Witness of C17 on the board with depth 5: from the all-off settled state, a scan that
samples key `(0, 0)` asserted leaves the counter at 4 and the matrix not stable. -/
theorem C17_idle_to_settling_witness :
    (matrix_scan (lightsaber 5) press00 all_off).1.debouncing = 5 - 1 ∧
    0 < (matrix_scan (lightsaber 5) press00 all_off).1.debouncing ∧
    matrix_is_modified (matrix_scan (lightsaber 5) press00 all_off).1 = false :=
  C17_idle_to_settling (lightsaber 5) press00 all_off (by decide) (by decide) rfl
    (all_off_differs_press00 5)

/-! ## Stable means up to date -/

theorem is_modified_iff (st : State) : matrix_is_modified st = true ↔ st.debouncing = 0 := by
  unfold matrix_is_modified
  by_cases h : st.debouncing = 0
  · simp [h]
  · simp [h]

/-- C18 (stable means up to date).  For a debounce depth `D = DEBOUNCE` with `1 ≤ D` that
the 8-bit counter can hold, in every state reachable from startup (all rows zero, counter
`D`) by calls of `matrix_init` and `matrix_scan` with arbitrary samples, the counter is at
most `D`, and if `matrix_is_modified` returns true then every row of the committed bitmap
equals the same row of the pending bitmap. -/
theorem C18_stable_means_up_to_date (cfg : Config) (st : State)
    (hD1 : 1 ≤ cfg.DEBOUNCE) (hD8 : cfg.DEBOUNCE < 256) (h : Reachable cfg st) :
    st.debouncing ≤ cfg.DEBOUNCE ∧
    (matrix_is_modified st = true →
      ∀ r, r < cfg.MATRIX_ROWS → st.matrix r = st.matrix_debouncing r) := by
  have hmod : cfg.DEBOUNCE % 256 = cfg.DEBOUNCE := Nat.mod_eq_of_lt hD8
  induction h with
  | startup =>
    refine ⟨?_, fun _ _ _ => rfl⟩
    show cfg.DEBOUNCE % 256 ≤ cfg.DEBOUNCE
    rw [hmod]
  | init s _ ih =>
    refine ⟨?_, ?_⟩
    · rw [matrix_init_debouncing]; exact ih.1
    · intro _ r hr
      rw [matrix_init_matrix, matrix_init_pending, if_pos hr, if_pos hr]
  | scan s inp _ ih =>
    by_cases hdiff : sample_differs cfg inp s
    · have hp := column_pass_debouncing_diff cfg inp s hdiff
      rw [hmod] at hp
      refine ⟨?_, ?_⟩
      · rw [scan_debouncing, hp]; omega
      · intro hm r hr
        have h0 := (is_modified_iff _).mp hm
        rw [scan_debouncing, hp] at h0
        have hc : scan_commits cfg inp s = true :=
          (scan_commits_iff cfg inp s).mpr (by rw [hp]; omega)
        exact scan_matrix_commit cfg inp s hc r hr
    · have hp := column_pass_debouncing_same cfg inp s hdiff
      refine ⟨?_, ?_⟩
      · rw [scan_debouncing, hp]
        have := ih.1
        omega
      · intro hm r hr
        have h0 := (is_modified_iff _).mp hm
        rw [scan_debouncing, hp] at h0
        by_cases h1 : s.debouncing = 1
        · have hc : scan_commits cfg inp s = true :=
            (scan_commits_iff cfg inp s).mpr (by rw [hp, h1])
          exact scan_matrix_commit cfg inp s hc r hr
        · have hz : s.debouncing = 0 := by omega
          have hc : scan_commits cfg inp s = false := by
            cases hcc : scan_commits cfg inp s
            · rfl
            · have := (scan_commits_iff cfg inp s).mp hcc
              rw [hp] at this
              exact absurd this h1
          rw [scan_matrix_keep cfg inp s hc, scan_pending,
            column_pass_pending_same cfg inp s hdiff]
          exact ih.2 ((is_modified_iff s).mpr hz) r hr

/-- Witness of C18 on the board with depth 1: after startup and a scan that samples key
`(0, 0)` asserted, the counter is at most 1, the matrix is stable and committed row 0
equals pending row 0. -/
theorem C18_stable_means_up_to_date_witness :
    (matrix_scan (lightsaber 1) press00 (startup (lightsaber 1))).1.debouncing ≤ 1 ∧
    (matrix_scan (lightsaber 1) press00 (startup (lightsaber 1))).1.matrix 0 =
      (matrix_scan (lightsaber 1) press00 (startup (lightsaber 1))).1.matrix_debouncing 0 :=
  ⟨(C18_stable_means_up_to_date (lightsaber 1) _ (by decide) (by decide)
      (Reachable.scan _ press00 Reachable.startup)).1,
   (C18_stable_means_up_to_date (lightsaber 1) _ (by decide) (by decide)
      (Reachable.scan _ press00 Reachable.startup)).2
      ((is_modified_iff _).mpr (scan_debouncing_diff _ _ _ (startup_differs_press00 1)))
      0 (by decide)⟩

/-! ## A commit certifies `DEBOUNCE` identical samples -/

/-- When the counter is `v` after the column pass of scan `i` of a run from startup, at
least `DEBOUNCE - v + 1` scans have run and the last `DEBOUNCE - v + 1` of them sampled
the same key matrix. -/
theorem counter_certifies (cfg : Config) (inps : Nat → Sample)
    (hD8 : cfg.DEBOUNCE < 256) :
    ∀ i v, 1 ≤ v → v ≤ cfg.DEBOUNCE →
      (column_pass cfg (inps i) (run cfg inps (startup cfg) i)).debouncing = v →
      cfg.DEBOUNCE ≤ i + v ∧
      ∀ j, j ≤ i → i + v ≤ j + cfg.DEBOUNCE → same_keys cfg (inps j) (inps i) := by
  have hmod : cfg.DEBOUNCE % 256 = cfg.DEBOUNCE := Nat.mod_eq_of_lt hD8
  intro i
  induction i with
  | zero =>
    intro v _ _ _
    have hv : v = cfg.DEBOUNCE := by
      rcases column_pass_debouncing_cases cfg (inps 0) (run cfg inps (startup cfg) 0) with h | h
      · rw [← hmod]; omega
      · have e : (run cfg inps (startup cfg) 0).debouncing = cfg.DEBOUNCE % 256 := rfl
        rw [← hmod]; omega
    refine ⟨by omega, ?_⟩
    intro j hj _
    have e : j = 0 := by omega
    subst e
    exact fun _ _ _ _ => rfl
  | succ i ih =>
    intro v hv1 hvD hpass
    by_cases hdiff : sample_differs cfg (inps (i + 1)) (run cfg inps (startup cfg) (i + 1))
    · have hp := column_pass_debouncing_diff cfg _ _ hdiff
      rw [hmod] at hp
      refine ⟨by omega, ?_⟩
      intro j hj hjD
      have e : j = i + 1 := by omega
      subst e
      exact fun _ _ _ _ => rfl
    · have hp := column_pass_debouncing_same cfg _ _ hdiff
      have hrun : (run cfg inps (startup cfg) (i + 1)).debouncing =
          (column_pass cfg (inps i) (run cfg inps (startup cfg) i)).debouncing - 1 :=
        scan_debouncing cfg (inps i) _
      have hprev : (column_pass cfg (inps i) (run cfg inps (startup cfg) i)).debouncing
          = v + 1 := by omega
      have hle : v + 1 ≤ cfg.DEBOUNCE := by
        rcases column_pass_debouncing_cases cfg (inps i) (run cfg inps (startup cfg) i)
          with h | h
        · rw [hmod] at h; omega
        · by_contra hgt
          have hv : v = cfg.DEBOUNCE := by omega
          have hb : ∀ n, (run cfg inps (startup cfg) n).debouncing ≤ cfg.DEBOUNCE := by
            intro n
            induction n with
            | zero => show cfg.DEBOUNCE % 256 ≤ cfg.DEBOUNCE; omega
            | succ n ihn =>
              show (matrix_scan cfg (inps n) _).1.debouncing ≤ cfg.DEBOUNCE
              rw [scan_debouncing]
              rcases column_pass_debouncing_cases cfg (inps n) (run cfg inps (startup cfg) n)
                with h2 | h2
              · rw [h2]; omega
              · rw [h2]; omega
          have := hb i
          omega
      obtain ⟨h1, h2⟩ := ih (v + 1) (by omega) hle hprev
      refine ⟨by omega, ?_⟩
      intro j hj hjD
      by_cases e : j = i + 1
      · subst e
        exact fun _ _ _ _ => rfl
      · intro r c hr hc
        rw [h2 j (by omega) (by omega) r c hr hc]
        have h3 : prev_bit (run cfg inps (startup cfg) (i + 1)) r c = sampled (inps i) r c :=
          scan_prev_bit cfg (inps i) _ r c hr hc
        rw [← h3]
        exact same_of_not_differs cfg _ _ hdiff r c hr hc

/-- C19 (a commit certifies `D` identical samples).  For a debounce depth `D = DEBOUNCE`
with `1 ≤ D` that the 8-bit counter can hold and every run of scans from startup (all rows
zero, counter `D`) with arbitrary samples: if scan number `i + 1` runs the copy into the
committed bitmap, then at least `D` scans have run (`D ≤ i + 1`), the last `D` scans all
sampled the same in-range key matrix, and after the scan every in-range bit of the
committed bitmap equals that sample. -/
theorem C19_commit_certifies_samples (cfg : Config) (inps : Nat → Sample) (i : Nat)
    (hD1 : 1 ≤ cfg.DEBOUNCE) (hD8 : cfg.DEBOUNCE < 256)
    (hc : scan_commits cfg (inps i) (run cfg inps (startup cfg) i) = true) :
    cfg.DEBOUNCE ≤ i + 1 ∧
    (∀ j, j ≤ i → i + 1 ≤ j + cfg.DEBOUNCE → same_keys cfg (inps j) (inps i)) ∧
    ∀ r c, r < cfg.MATRIX_ROWS → c < cfg.MATRIX_COLS →
      matrix_is_on (run cfg inps (startup cfg) (i + 1)) r c = sampled (inps i) r c := by
  have hp := (scan_commits_iff cfg (inps i) _).mp hc
  obtain ⟨h1, h2⟩ := counter_certifies cfg inps hD8 i 1 (le_refl 1) hD1 hp
  refine ⟨h1, h2, ?_⟩
  intro r c hr hcc
  show matrix_is_on (matrix_scan cfg (inps i) (run cfg inps (startup cfg) i)).1 r c = _
  rw [matrix_is_on_eq, scan_matrix_commit cfg _ _ hc r hr, scan_bit, if_pos ⟨hr, hcc⟩]

theorem run_one (cfg : Config) (inps : Nat → Sample) (st : State) :
    run cfg inps st 1 = (matrix_scan cfg (inps 0) st).1 :=
  rfl

theorem press00_second_scan_commits :
    scan_commits (lightsaber 2) press00
      (run (lightsaber 2) (fun _ => press00) (startup (lightsaber 2)) 1) = true := by
  apply (scan_commits_iff _ _ _).mpr
  have hsame : ¬ sample_differs (lightsaber 2) press00
      (run (lightsaber 2) (fun _ => press00) (startup (lightsaber 2)) 1) := by
    rintro ⟨r, c, hr, hc, hne⟩
    exact hne (scan_prev_bit (lightsaber 2) press00 _ r c hr hc)
  rw [column_pass_debouncing_same _ _ _ hsame, run_one,
    scan_debouncing_diff _ _ _ (startup_differs_press00 2)]
  rfl

/-- Witness of C19 on the board with depth 2: with key `(0, 0)` held from startup, the
second scan runs the copy; two scans have run, both sampled the same keys and key `(0, 0)`
is on in the committed bitmap. -/
theorem C19_commit_certifies_samples_witness :
    (lightsaber 2).DEBOUNCE ≤ 1 + 1 ∧
    same_keys (lightsaber 2) press00 press00 ∧
    matrix_is_on (run (lightsaber 2) (fun _ => press00) (startup (lightsaber 2)) 2) 0 0 =
      sampled press00 0 0 :=
  ⟨(C19_commit_certifies_samples (lightsaber 2) (fun _ => press00) 1 (by decide) (by decide)
      press00_second_scan_commits).1,
   (C19_commit_certifies_samples (lightsaber 2) (fun _ => press00) 1 (by decide) (by decide)
      press00_second_scan_commits).2.1 0 (by decide) (by decide),
   (C19_commit_certifies_samples (lightsaber 2) (fun _ => press00) 1 (by decide) (by decide)
      press00_second_scan_commits).2.2 0 0 (by decide) (by decide)⟩

end Lightsaber
